import Mathlib

/-!
Shallow embedding of `ntcore`'s `ListenerStorage` (ListenerStorage.cpp) and
proofs of the specification's claims about it.

Modelling conventions:
* `unsigned int` bitmasks become `Nat` with `&&&`/`|||`/`^^^`; all mask
  arithmetic in the source stays within 32 bits, and every operation used
  here (`and`, `or`) is width-independent, so no explicit truncation is
  needed.  `mask & ~eventMask` is written `mask ^^^ (mask &&& eventMask)`,
  which agrees with it bit-for-bit at every width.
* Opaque handles (`NT_Listener`, `NT_ListenerPoller`, `NT_Topic`,
  `NT_Handle`) become `Nat`; handle `0` is the invalid handle, as in ntcore.
* The handle tables `m_listeners` / `m_pollers` become association lists of
  records keyed by their `handle` field; `Get` is first-match lookup,
  `Remove` removes the first match and returns it.
* Wait-handle signalling (`wpi::Event::Set`) is recorded in the operation's
  return value as a list of `Sig` values instead of mutating an external
  event object; the state itself holds no signal bits.
* Everything runs under one mutex in the source, so the shallow embedding is
  a sequential state-transition system.
-/

namespace nt

/-- Modelled from the spec / external header `ntcore_c.h` (not part of this
excerpt): the event-category bitmask constants consumed by
ListenerStorage.cpp. -/
def NT_EVENT_CONNECTION : Nat := 0x06

/-- Modelled from the spec / external header `ntcore_c.h`: topic-event bits. -/
def NT_EVENT_TOPIC : Nat := 0x38

/-- Modelled from the spec / external header `ntcore_c.h`: value-event bits. -/
def NT_EVENT_VALUE_ALL : Nat := 0xC0

/-- Modelled from the spec / external header `ntcore_c.h`: log-message bit. -/
def NT_EVENT_LOGMESSAGE : Nat := 0x100

/-- Modelled from the spec: connection-info payloads are opaque value types
whose identity semantics are external; we keep an abstract identifier. -/
abbrev ConnectionInfo := Nat

/-- Modelled from the spec: topic-info payloads, abstract identifier. -/
abbrev TopicInfo := Nat

/-- Modelled from the spec: `Value` payloads, abstract identifier. -/
abbrev Value := Nat

/-- Payload variant of an `Event` (connection-info, topic-info,
(topic, subentry, value) triple, or log-message fields). -/
inductive EventPayload where
  | conn (info : ConnectionInfo)
  | topic (info : TopicInfo)
  | value (topic : Nat) (subentry : Nat) (value : Value)
  | log (level : Nat) (filename : String) (line : Nat) (message : String)
deriving DecidableEq, Repr

/-- An event record: which listener it is for, the category flags of the
notification that produced it, and the payload. -/
structure Event where
  listener : Nat
  flags : Nat
  payload : EventPayload
deriving DecidableEq, Repr

/-- `FinishEventFunc`: called with the source's mask and (a pointer to) the
just-appended event; may rewrite the event and returns whether to keep it.
The C++ signature is `bool(unsigned int mask, Event* event)`; the possible
in-place mutation is modelled by returning the (possibly rewritten) event
together with the keep/discard boolean. -/
def FinishEventFunc := Nat → Event → Bool × Event

/-- `ListenerData`: a listener registration.  `poller` stores the handle of
the owning poller (the source stores a pointer; under the storage invariant
the pointed-to poller is always live, so the handle determines it). -/
structure ListenerData where
  handle : Nat
  poller : Nat
  eventMask : Nat
  sources : List (Option FinishEventFunc × Nat)

/-- `PollerData`: a poller's pending event queue (its wait handle is the
poller handle itself; signalling is reported in operation outputs). -/
structure PollerData where
  handle : Nat
  queue : List Event

/-- Dispatch-thread state (`ListenerStorage::Thread`): the poller it drains
and the set of listener handles that currently have callbacks registered
(the callback closures themselves are opaque and irrelevant to the claims,
so only the key set of `m_callbacks` is kept). -/
structure ThreadData where
  poller : Nat
  callbacks : List Nat

/-- The whole `ListenerStorage` state: listener table, poller table, the
four category indices (`m_connListeners` etc., sets of references modelled
as lists of listener handles), the lazily started dispatch thread, and
allocation counters for the external handle table. -/
structure ListenerStorage where
  listeners : List ListenerData
  pollers : List PollerData
  connListeners : List Nat
  topicListeners : List Nat
  valueListeners : List Nat
  logListeners : List Nat
  thread : Option ThreadData
  nextListenerHandle : Nat
  nextPollerHandle : Nat

/-- A wait-handle signal emitted by an operation: `wpi::Event::Set` on a
listener's wait handle or on a poller's wait handle. -/
inductive Sig where
  | listener (h : Nat)
  | poller (h : Nat)
deriving DecidableEq, Repr

/-- The empty storage (`ListenerStorage::ListenerStorage`): no listeners, no
pollers, no thread; handles are allocated from 1 (0 is invalid). -/
def initState : ListenerStorage :=
  ⟨[], [], [], [], [], [], none, 1, 1⟩

/-- `m_listeners.Get`: first-match lookup by handle. -/
def getL (ls : List ListenerData) (h : Nat) : Option ListenerData :=
  ls.find? (fun l => l.handle == h)

/-- `m_listeners.Remove`: remove the first entry with the given handle and
return it (or `none` and the unchanged list). -/
def removeL : List ListenerData → Nat → Option ListenerData × List ListenerData
  | [], _ => (none, [])
  | l :: ls, h =>
    if l.handle == h then (some l, ls)
    else
      let r := removeL ls h
      (r.1, l :: r.2)

/-- `m_pollers.Get`: first-match lookup by handle. -/
def getPoller (ps : List PollerData) (h : Nat) : Option PollerData :=
  ps.find? (fun p => p.handle == h)

/-- `m_pollers.Remove`. -/
def removeP : List PollerData → Nat → Option PollerData × List PollerData
  | [], _ => (none, [])
  | p :: ps, h =>
    if p.handle == h then (some p, ps)
    else
      let r := removeP ps h
      (r.1, p :: r.2)

/-- Writing `poller->queue`: replace the queue of the poller with the given
handle. -/
def setPollerQueue (st : ListenerStorage) (p : Nat) (q : List Event) : ListenerStorage :=
  { st with pollers := st.pollers.map (fun pd => if pd.handle == p then { pd with queue := q } else pd) }

/-- Reading `poller->queue` (empty for a stale handle). -/
def getQueue (st : ListenerStorage) (p : Nat) : List Event :=
  match getPoller st.pollers p with
  | some pd => pd.queue
  | none => []

/-- Modelled from the spec: the category indices are membership sets
(`Add` inserts if absent). -/
def addIndex (xs : List Nat) (h : Nat) : List Nat :=
  if h ∈ xs then xs else xs ++ [h]

/-- Modelled from the spec: removing a listener's back-reference from a
category index (set removal). -/
def removeIndex (xs : List Nat) (h : Nat) : List Nat :=
  xs.filter (fun x => x != h)

/-- `ListenerStorage::Activate` (ListenerStorage.cpp:63-86): append a new
`(finishEvent, mask)` source to an existing listener, OR the mask into its
`eventMask`, and add the listener to every category index whose bit newly
appears (`deltaMask = mask & ~eventMask`). Silently a no-op on a stale
handle. -/
def Activate (st : ListenerStorage) (listenerHandle mask : Nat)
    (finishEvent : Option FinishEventFunc) : ListenerStorage :=
  match getL st.listeners listenerHandle with
  | none => st
  | some listener =>
    let deltaMask := mask ^^^ (mask &&& listener.eventMask)
    { st with
      listeners := st.listeners.map (fun l =>
        if l.handle == listenerHandle then
          { l with sources := l.sources ++ [(finishEvent, mask)],
                   eventMask := l.eventMask ||| mask }
        else l),
      connListeners := if deltaMask &&& NT_EVENT_CONNECTION ≠ 0 then
        addIndex st.connListeners listenerHandle else st.connListeners,
      topicListeners := if deltaMask &&& NT_EVENT_TOPIC ≠ 0 then
        addIndex st.topicListeners listenerHandle else st.topicListeners,
      valueListeners := if deltaMask &&& NT_EVENT_VALUE_ALL ≠ 0 then
        addIndex st.valueListeners listenerHandle else st.valueListeners,
      logListeners := if deltaMask &&& NT_EVENT_LOGMESSAGE ≠ 0 ∨ deltaMask &&& 0x1ff0000 ≠ 0 then
        addIndex st.logListeners listenerHandle else st.logListeners }

/-- One source's contribution in the ConnectionInfo `doSignal`
(ListenerStorage.cpp:96-109): if the source's mask intersects `flags`,
append one event per info; `finishEvent` is never consulted (source comment:
"finishEvent is never set (see ConnectionList)"). -/
def connStep (listenerHandle flags : Nat) (infos : List ConnectionInfo)
    (q : List Event) (s : Option FinishEventFunc × Nat) : List Event :=
  if flags &&& s.2 ≠ 0 then
    infos.foldl (fun q info => q ++ [⟨listenerHandle, flags, EventPayload.conn info⟩]) q
  else q

/-- The ConnectionInfo overload's `doSignal` lambda: when the listener's
mask intersects `flags`, append events for every matching source and signal
both the listener's and the poller's wait handles (unconditionally — there
is no survivor count in this overload). -/
def doSignalConn (st : ListenerStorage) (listener : ListenerData) (flags : Nat)
    (infos : List ConnectionInfo) : ListenerStorage × List Sig :=
  if flags &&& listener.eventMask ≠ 0 then
    match getPoller st.pollers listener.poller with
    | some pd =>
      let q := listener.sources.foldl (connStep listener.handle flags infos) pd.queue
      (setPollerQueue st listener.poller q,
        [Sig.listener listener.handle, Sig.poller listener.poller])
    | none => (st, [])
  else (st, [])

/-- One info's contribution inside a matching source of the TopicInfo
`doSignal` (ListenerStorage.cpp:134-151): the source appends the event,
hands it to `finishEvent` (which may rewrite it) and pops it again when
`finishEvent` returns false; the net effect on the queue and on `count` is
modelled directly. -/
def topicInfoStep (listenerHandle flags : Nat) (finishEvent : Option FinishEventFunc)
    (mask : Nat) (acc : List Event × Nat) (info : TopicInfo) : List Event × Nat :=
  let e : Event := ⟨listenerHandle, flags, EventPayload.topic info⟩
  match finishEvent with
  | none => (acc.1 ++ [e], acc.2 + 1)
  | some f =>
    let r := f mask e
    if r.1 then (acc.1 ++ [r.2], acc.2 + 1) else acc

/-- One source's contribution in the TopicInfo `doSignal`. -/
def topicStep (listenerHandle flags : Nat) (infos : List TopicInfo)
    (acc : List Event × Nat) (s : Option FinishEventFunc × Nat) : List Event × Nat :=
  if flags &&& s.2 ≠ 0 then
    infos.foldl (topicInfoStep listenerHandle flags s.1 s.2) acc
  else acc

/-- The TopicInfo overload's `doSignal` lambda: append events for matching
sources (subject to each source's finish-predicate) and signal the listener
and poller wait handles once iff at least one event survived
(`count > 0`). -/
def doSignalTopic (st : ListenerStorage) (listener : ListenerData) (flags : Nat)
    (infos : List TopicInfo) : ListenerStorage × List Sig :=
  if flags &&& listener.eventMask ≠ 0 then
    match getPoller st.pollers listener.poller with
    | some pd =>
      let r := listener.sources.foldl (topicStep listener.handle flags infos) (pd.queue, 0)
      (setPollerQueue st listener.poller r.1,
        if r.2 > 0 then [Sig.listener listener.handle, Sig.poller listener.poller] else [])
    | none => (st, [])
  else (st, [])

/-- One source's contribution in the value `doSignal`
(ListenerStorage.cpp:176-195); same append/finish-predicate/pop net effect
as the topic case, with a single `(topic, subentry, value)` payload. -/
def valueStep (listenerHandle flags topic subentry value : Nat)
    (acc : List Event × Nat) (s : Option FinishEventFunc × Nat) : List Event × Nat :=
  if flags &&& s.2 ≠ 0 then
    let e : Event := ⟨listenerHandle, flags, EventPayload.value topic subentry value⟩
    match s.1 with
    | none => (acc.1 ++ [e], acc.2 + 1)
    | some f =>
      let r := f s.2 e
      if r.1 then (acc.1 ++ [r.2], acc.2 + 1) else acc
  else acc

/-- The value overload's `doSignal` lambda. -/
def doSignalValue (st : ListenerStorage) (listener : ListenerData)
    (flags topic subentry value : Nat) : ListenerStorage × List Sig :=
  if flags &&& listener.eventMask ≠ 0 then
    match getPoller st.pollers listener.poller with
    | some pd =>
      let r := listener.sources.foldl (valueStep listener.handle flags topic subentry value) (pd.queue, 0)
      (setPollerQueue st listener.poller r.1,
        if r.2 > 0 then [Sig.listener listener.handle, Sig.poller listener.poller] else [])
    | none => (st, [])
  else (st, [])

/-- One source's contribution in the log-message loop
(ListenerStorage.cpp:220-232). -/
def logStep (listenerHandle flags level : Nat) (filename : String) (line : Nat)
    (message : String) (acc : List Event × Nat) (s : Option FinishEventFunc × Nat) :
    List Event × Nat :=
  if flags &&& s.2 ≠ 0 then
    let e : Event := ⟨listenerHandle, flags, EventPayload.log level filename line message⟩
    match s.1 with
    | none => (acc.1 ++ [e], acc.2 + 1)
    | some f =>
      let r := f s.2 e
      if r.1 then (acc.1 ++ [r.2], acc.2 + 1) else acc
  else acc

/-- The per-listener body of the log-message `Notify` overload
(ListenerStorage.cpp:218-238); structurally identical to the other
`doSignal` lambdas. -/
def doSignalLog (st : ListenerStorage) (listener : ListenerData)
    (flags level : Nat) (filename : String) (line : Nat) (message : String) :
    ListenerStorage × List Sig :=
  if flags &&& listener.eventMask ≠ 0 then
    match getPoller st.pollers listener.poller with
    | some pd =>
      let r := listener.sources.foldl (logStep listener.handle flags level filename line message) (pd.queue, 0)
      (setPollerQueue st listener.poller r.1,
        if r.2 > 0 then [Sig.listener listener.handle, Sig.poller listener.poller] else [])
    | none => (st, [])
  else (st, [])

/-- Processing one target handle of the ConnectionInfo `Notify` overload:
look the listener up and run `doSignal` on it (stale handles skipped). -/
def notifyStepConn (flags : Nat) (infos : List ConnectionInfo)
    (acc : ListenerStorage × List Sig) (h : Nat) : ListenerStorage × List Sig :=
  match getL acc.1.listeners h with
  | some listener =>
    let r := doSignalConn acc.1 listener flags infos
    (r.1, acc.2 ++ r.2)
  | none => acc

/-- `ListenerStorage::Notify` (ConnectionInfo overload,
ListenerStorage.cpp:88-122): no-op when `flags == 0`; otherwise run
`doSignal` over the explicit handles, or over `m_connListeners` when the
handle span is empty. -/
def NotifyConn (st : ListenerStorage) (handles : List Nat) (flags : Nat)
    (infos : List ConnectionInfo) : ListenerStorage × List Sig :=
  if flags = 0 then (st, [])
  else if handles.isEmpty then
    st.connListeners.foldl (notifyStepConn flags infos) (st, [])
  else handles.foldl (notifyStepConn flags infos) (st, [])

/-- Processing one target handle of the TopicInfo `Notify` overload. -/
def notifyStepTopic (flags : Nat) (infos : List TopicInfo)
    (acc : ListenerStorage × List Sig) (h : Nat) : ListenerStorage × List Sig :=
  match getL acc.1.listeners h with
  | some listener =>
    let r := doSignalTopic acc.1 listener flags infos
    (r.1, acc.2 ++ r.2)
  | none => acc

/-- `ListenerStorage::Notify` (TopicInfo overload,
ListenerStorage.cpp:124-166). -/
def NotifyTopic (st : ListenerStorage) (handles : List Nat) (flags : Nat)
    (infos : List TopicInfo) : ListenerStorage × List Sig :=
  if flags = 0 then (st, [])
  else if handles.isEmpty then
    st.topicListeners.foldl (notifyStepTopic flags infos) (st, [])
  else handles.foldl (notifyStepTopic flags infos) (st, [])

/-- Processing one target handle of the value `Notify` overload. -/
def notifyStepValue (flags topic subentry value : Nat)
    (acc : ListenerStorage × List Sig) (h : Nat) : ListenerStorage × List Sig :=
  match getL acc.1.listeners h with
  | some listener =>
    let r := doSignalValue acc.1 listener flags topic subentry value
    (r.1, acc.2 ++ r.2)
  | none => acc

/-- `ListenerStorage::Notify` (value overload, ListenerStorage.cpp:168-209). -/
def NotifyValue (st : ListenerStorage) (handles : List Nat)
    (flags topic subentry value : Nat) : ListenerStorage × List Sig :=
  if flags = 0 then (st, [])
  else if handles.isEmpty then
    st.valueListeners.foldl (notifyStepValue flags topic subentry value) (st, [])
  else handles.foldl (notifyStepValue flags topic subentry value) (st, [])

/-- Processing one listener of the log `Notify` overload (which always
iterates `m_logListeners`; it has no explicit-handles parameter). -/
def notifyStepLog (flags level : Nat) (filename : String) (line : Nat) (message : String)
    (acc : ListenerStorage × List Sig) (h : Nat) : ListenerStorage × List Sig :=
  match getL acc.1.listeners h with
  | some listener =>
    let r := doSignalLog acc.1 listener flags level filename line message
    (r.1, acc.2 ++ r.2)
  | none => acc

/-- `ListenerStorage::Notify` (log overload, ListenerStorage.cpp:211-239). -/
def NotifyLog (st : ListenerStorage) (flags level : Nat) (filename : String)
    (line : Nat) (message : String) : ListenerStorage × List Sig :=
  if flags = 0 then (st, [])
  else st.logListeners.foldl (notifyStepLog flags level filename line message) (st, [])

/-- `ListenerStorage::CreateListenerPoller` (ListenerStorage.cpp:270-273):
allocate a fresh poller with an empty queue. -/
def CreateListenerPoller (st : ListenerStorage) : ListenerStorage × Nat :=
  let h := st.nextPollerHandle
  ({ st with pollers := st.pollers ++ [⟨h, []⟩], nextPollerHandle := h + 1 }, h)

/-- `ListenerStorage::DoAddListener` (ListenerStorage.cpp:262-268): create a
listener bound to the poller (with empty mask and no sources), or return the
invalid handle 0 when the poller handle is stale. -/
def DoAddListener (st : ListenerStorage) (pollerHandle : Nat) : ListenerStorage × Nat :=
  match getPoller st.pollers pollerHandle with
  | some _ =>
    let h := st.nextListenerHandle
    ({ st with listeners := st.listeners ++ [⟨h, pollerHandle, 0, []⟩],
               nextListenerHandle := h + 1 }, h)
  | none => (st, 0)

/-- `ListenerStorage::AddListener(NT_ListenerPoller)`
(ListenerStorage.cpp:257-260). -/
def AddListenerPoller (st : ListenerStorage) (pollerHandle : Nat) : ListenerStorage × Nat :=
  DoAddListener st pollerHandle

/-- `ListenerStorage::AddListener(ListenerCallback)`
(ListenerStorage.cpp:241-255): lazily start the dispatch thread bound to a
fresh poller, register a listener against the thread's poller, and record
the callback under the listener handle (callback closures are opaque; only
the key set of `m_callbacks` is tracked).  Thread startup itself is assumed
to succeed (platform failure is an external concern). -/
def AddListenerCallback (st : ListenerStorage) : ListenerStorage × Nat :=
  let st :=
    match st.thread with
    | none =>
      let r := CreateListenerPoller st
      { r.1 with thread := some ⟨r.2, []⟩ }
    | some _ => st
  match st.thread with
  | some t =>
    let r := DoAddListener st t.poller
    if r.2 ≠ 0 then
      ({ r.1 with thread := some ⟨t.poller, t.callbacks ++ [r.2]⟩ }, r.2)
    else r
  | none => (st, 0)

/-- One handle's step of `ListenerStorage::DoRemoveListeners`
(ListenerStorage.cpp:323-351): remove the listener from the table; if
removed, record `(handle, eventMask)`, erase its callback when its poller is
the dispatch thread's poller, and remove it from every category index its
mask bits place it in (including the extended log sub-level range
`0x1ff0000`). -/
def removeListenerStep (acc : ListenerStorage × List (Nat × Nat)) (h : Nat) :
    ListenerStorage × List (Nat × Nat) :=
  match removeL acc.1.listeners h with
  | (none, _) => acc
  | (some listener, ls') =>
    ({ acc.1 with
       listeners := ls',
       thread := match acc.1.thread with
         | some t =>
           if t.poller == listener.poller then
             some ⟨t.poller, t.callbacks.filter (fun c => c != h)⟩
           else some t
         | none => none,
       connListeners := if listener.eventMask &&& NT_EVENT_CONNECTION ≠ 0 then
         removeIndex acc.1.connListeners h else acc.1.connListeners,
       topicListeners := if listener.eventMask &&& NT_EVENT_TOPIC ≠ 0 then
         removeIndex acc.1.topicListeners h else acc.1.topicListeners,
       valueListeners := if listener.eventMask &&& NT_EVENT_VALUE_ALL ≠ 0 then
         removeIndex acc.1.valueListeners h else acc.1.valueListeners,
       logListeners := if listener.eventMask &&& NT_EVENT_LOGMESSAGE ≠ 0 ∨
           listener.eventMask &&& 0x1ff0000 ≠ 0 then
         removeIndex acc.1.logListeners h else acc.1.logListeners },
     acc.2 ++ [(h, listener.eventMask)])

/-- `ListenerStorage::DoRemoveListeners` (ListenerStorage.cpp:323-351). -/
def DoRemoveListeners (st : ListenerStorage) (handles : List Nat) :
    ListenerStorage × List (Nat × Nat) :=
  handles.foldl removeListenerStep (st, [])

/-- `ListenerStorage::DestroyListenerPoller` (ListenerStorage.cpp:275-290):
remove the poller; if it existed, collect every listener whose poller it was
and remove them all, returning their `(handle, eventMask)` pairs; a stale
poller handle returns the empty list and changes nothing. -/
def DestroyListenerPoller (st : ListenerStorage) (pollerHandle : Nat) :
    ListenerStorage × List (Nat × Nat) :=
  match removeP st.pollers pollerHandle with
  | (none, _) => (st, [])
  | (some _, ps') =>
    let st := { st with pollers := ps' }
    let toRemove := (st.listeners.filter (fun l => l.poller == pollerHandle)).map
      (fun l => l.handle)
    DoRemoveListeners st toRemove

/-- `ListenerStorage::ReadListenerQueue` (ListenerStorage.cpp:292-302):
swap the poller's queue with an empty one and return the old queue; a stale
poller handle returns the empty list and changes nothing. -/
def ReadListenerQueue (st : ListenerStorage) (pollerHandle : Nat) :
    ListenerStorage × List Event :=
  match getPoller st.pollers pollerHandle with
  | some pd => (setPollerQueue st pollerHandle [], pd.queue)
  | none => (st, [])

/-- `ListenerStorage::RemoveListener` (ListenerStorage.cpp:304-308). -/
def RemoveListener (st : ListenerStorage) (listenerHandle : Nat) :
    ListenerStorage × List (Nat × Nat) :=
  DoRemoveListeners st [listenerHandle]

/-- `ListenerStorage::WaitForListenerQueue` (ListenerStorage.cpp:310-321).
The outcome of the external platform primitive `wpi::WaitForObject` on the
waiter handle is passed in as the oracle `waitResult` (it depends on real
time and on the dispatch thread, both out of scope).  Returns the function's
boolean result and whether `m_waitQueueWakeup` was signalled. -/
def WaitForListenerQueue (st : ListenerStorage) (waitResult : Bool) : Bool × Bool :=
  match st.thread with
  | some _ => (waitResult, true)
  | none => (false, false)

/-- A public operation on the storage (used to state reachability
invariants over arbitrary operation sequences). -/
inductive Op where
  | activate (listenerHandle mask : Nat) (finishEvent : Option FinishEventFunc)
  | notifyConn (handles : List Nat) (flags : Nat) (infos : List ConnectionInfo)
  | notifyTopic (handles : List Nat) (flags : Nat) (infos : List TopicInfo)
  | notifyValue (handles : List Nat) (flags topic subentry value : Nat)
  | notifyLog (flags level : Nat) (filename : String) (line : Nat) (message : String)
  | addListenerCallback
  | addListenerPoller (pollerHandle : Nat)
  | createListenerPoller
  | destroyListenerPoller (pollerHandle : Nat)
  | readListenerQueue (pollerHandle : Nat)
  | removeListener (listenerHandle : Nat)
  | waitForListenerQueue

/-- State transition of one public operation (discarding outputs). -/
def applyOp (st : ListenerStorage) : Op → ListenerStorage
  | .activate h mask fe => Activate st h mask fe
  | .notifyConn hs flags infos => (NotifyConn st hs flags infos).1
  | .notifyTopic hs flags infos => (NotifyTopic st hs flags infos).1
  | .notifyValue hs flags topic subentry value => (NotifyValue st hs flags topic subentry value).1
  | .notifyLog flags level filename line message => (NotifyLog st flags level filename line message).1
  | .addListenerCallback => (AddListenerCallback st).1
  | .addListenerPoller p => (AddListenerPoller st p).1
  | .createListenerPoller => (CreateListenerPoller st).1
  | .destroyListenerPoller p => (DestroyListenerPoller st p).1
  | .readListenerQueue p => (ReadListenerQueue st p).1
  | .removeListener h => (RemoveListener st h).1
  | .waitForListenerQueue => st

/-- Run a sequence of public operations from a state. -/
def runOps (st : ListenerStorage) (ops : List Op) : ListenerStorage :=
  ops.foldl applyOp st

/-- Aggregated mask of a source list: the bitwise OR of all sources' masks. -/
def orMasks (sources : List (Option FinishEventFunc × Nat)) : Nat :=
  sources.foldl (fun acc s => acc ||| s.2) 0

/-! ### Bitwise helper lemmas -/

theorem lor_eq_zero_iff (a b : Nat) : a ||| b = 0 ↔ a = 0 ∧ b = 0 := by
  constructor
  · intro h
    have ha : a = 0 := by
      apply Nat.eq_of_testBit_eq
      intro i
      have hi := congrArg (fun x => Nat.testBit x i) h
      simp only [Nat.testBit_lor, Nat.zero_testBit, Bool.or_eq_false_iff] at hi
      simp [Nat.zero_testBit, hi.1]
    have hb : b = 0 := by
      apply Nat.eq_of_testBit_eq
      intro i
      have hi := congrArg (fun x => Nat.testBit x i) h
      simp only [Nat.testBit_lor, Nat.zero_testBit, Bool.or_eq_false_iff] at hi
      simp [Nat.zero_testBit, hi.2]
    exact ⟨ha, hb⟩
  · rintro ⟨rfl, rfl⟩
    rfl

theorem land_lor_right (a b c : Nat) : (a ||| b) &&& c = (a &&& c) ||| (b &&& c) := by
  apply Nat.eq_of_testBit_eq
  intro i
  simp only [Nat.testBit_land, Nat.testBit_lor]
  cases a.testBit i <;> cases b.testBit i <;> cases c.testBit i <;> rfl

theorem lor_land_ne_zero (a b c : Nat) :
    (a ||| b) &&& c ≠ 0 ↔ a &&& c ≠ 0 ∨ b &&& c ≠ 0 := by
  rw [land_lor_right]
  constructor
  · intro h
    by_contra hc
    push_neg at hc
    exact h (by simp [hc.1, hc.2])
  · rintro (h | h) hz
    · exact h ((lor_eq_zero_iff _ _).mp hz).1
    · exact h ((lor_eq_zero_iff _ _).mp hz).2

theorem delta_land_of_disjoint (m o c : Nat) (h : o &&& c = 0) :
    (m ^^^ (m &&& o)) &&& c = m &&& c := by
  apply Nat.eq_of_testBit_eq
  intro i
  have hi := congrArg (fun x => Nat.testBit x i) h
  simp only [Nat.testBit_land, Nat.zero_testBit, Bool.and_eq_false_iff] at hi
  simp only [Nat.testBit_land, Nat.testBit_xor]
  rcases hi with ho | hc
  · simp [ho]
  · simp [hc]

theorem land_ne_zero_of_delta (m o c : Nat) (h : (m ^^^ (m &&& o)) &&& c ≠ 0) :
    m &&& c ≠ 0 := by
  intro hm
  apply h
  apply Nat.eq_of_testBit_eq
  intro i
  have hi := congrArg (fun x => Nat.testBit x i) hm
  simp only [Nat.testBit_land, Nat.zero_testBit, Bool.and_eq_false_iff] at hi
  simp only [Nat.testBit_land, Nat.testBit_xor, Nat.zero_testBit]
  rcases hi with hm' | hc
  · simp [hm']
  · simp [hc]

theorem orMasks_append (s : List (Option FinishEventFunc × Nat))
    (fe : Option FinishEventFunc) (m : Nat) :
    orMasks (s ++ [(fe, m)]) = orMasks s ||| m := by
  simp [orMasks, List.foldl_append]

/-! ### Table (association list) lemmas -/

theorem getL_handle {ls : List ListenerData} {h : Nat} {l : ListenerData}
    (hg : getL ls h = some l) : l.handle = h := by
  have := List.find?_some hg
  simpa using this

theorem getL_mem {ls : List ListenerData} {h : Nat} {l : ListenerData}
    (hg : getL ls h = some l) : l ∈ ls :=
  List.mem_of_find?_eq_some hg

theorem getL_eq_none {ls : List ListenerData} {h : Nat}
    (hall : ∀ x ∈ ls, x.handle ≠ h) : getL ls h = none := by
  apply List.find?_eq_none.mpr
  intro x hx
  simpa using hall x hx

theorem getL_cons_pos {l0 : ListenerData} {t : List ListenerData} {h : Nat}
    (h0 : l0.handle = h) : getL (l0 :: t) h = some l0 :=
  List.find?_cons_of_pos t (by simp [h0])

theorem getL_cons_neg {l0 : ListenerData} {t : List ListenerData} {h : Nat}
    (h0 : ¬l0.handle = h) : getL (l0 :: t) h = getL t h :=
  List.find?_cons_of_neg t (by simp [h0])

theorem getL_unique {ls : List ListenerData} {h : Nat} {listener : ListenerData}
    (hnd : (ls.map (fun l => l.handle)).Nodup)
    (hg : getL ls h = some listener) :
    ∀ l ∈ ls, l.handle = h → l = listener := by
  induction ls with
  | nil => simp [getL] at hg
  | cons l0 t ih =>
    simp only [List.map_cons, List.nodup_cons] at hnd
    intro l hl hlh
    by_cases h0 : l0.handle = h
    · rw [getL_cons_pos h0] at hg
      cases hg
      rcases List.mem_cons.mp hl with rfl | hlt
      · rfl
      · exact absurd (List.mem_map.mpr ⟨l, hlt, hlh.trans h0.symm⟩) hnd.1
    · rw [getL_cons_neg h0] at hg
      rcases List.mem_cons.mp hl with rfl | hlt
      · exact absurd hlh h0
      · exact ih hnd.2 hg l hlt hlh

theorem removeL_fst (ls : List ListenerData) (h : Nat) :
    (removeL ls h).1 = getL ls h := by
  induction ls with
  | nil => rfl
  | cons l t ih =>
    by_cases h0 : l.handle = h
    · rw [getL_cons_pos h0]
      simp [removeL, h0]
    · rw [getL_cons_neg h0]
      simp only [removeL, if_neg (by simp [h0] : ¬(l.handle == h) = true)]
      exact ih

theorem removeL_none {ls : List ListenerData} {h : Nat}
    (hg : getL ls h = none) : removeL ls h = (none, ls) := by
  induction ls with
  | nil => rfl
  | cons l t ih =>
    by_cases h0 : l.handle = h
    · rw [getL_cons_pos h0] at hg
      cases hg
    · rw [getL_cons_neg h0] at hg
      have := ih hg
      simp only [removeL, if_neg (by simp [h0] : ¬(l.handle == h) = true), this]

theorem removeL_some_decomp {ls : List ListenerData} {h : Nat} {listener : ListenerData}
    {ls' : List ListenerData} (hr : removeL ls h = (some listener, ls')) :
    listener.handle = h ∧
    ∃ s t, ls = s ++ listener :: t ∧ ls' = s ++ t ∧ ∀ x ∈ s, x.handle ≠ h := by
  induction ls generalizing ls' with
  | nil => simp [removeL] at hr
  | cons l0 t ih =>
    by_cases h0 : l0.handle = h
    · simp only [removeL, if_pos (by simp [h0] : (l0.handle == h) = true)] at hr
      cases hr
      exact ⟨h0, [], t, rfl, rfl, by simp⟩
    · simp only [removeL, if_neg (by simp [h0] : ¬(l0.handle == h) = true)] at hr
      have h1 : (removeL t h).1 = some listener := congrArg Prod.fst hr
      have h2 : l0 :: (removeL t h).2 = ls' := congrArg Prod.snd hr
      have hr' : removeL t h = (some listener, (removeL t h).2) := by
        rw [← h1]
      obtain ⟨hh, s, u, hts, hts', hall⟩ := ih hr'
      refine ⟨hh, l0 :: s, u, by simp [hts], ?_, ?_⟩
      · rw [← h2, hts']
        rfl
      · intro x hx
        rcases List.mem_cons.mp hx with rfl | hxs
        · exact h0
        · exact hall x hxs

theorem getPoller_handle {ps : List PollerData} {h : Nat} {p : PollerData}
    (hg : getPoller ps h = some p) : p.handle = h := by
  have := List.find?_some hg
  simpa using this

theorem getPoller_cons_pos {p0 : PollerData} {t : List PollerData} {h : Nat}
    (h0 : p0.handle = h) : getPoller (p0 :: t) h = some p0 :=
  List.find?_cons_of_pos t (by simp [h0])

theorem getPoller_cons_neg {p0 : PollerData} {t : List PollerData} {h : Nat}
    (h0 : ¬p0.handle = h) : getPoller (p0 :: t) h = getPoller t h :=
  List.find?_cons_of_neg t (by simp [h0])

theorem removeP_fst (ps : List PollerData) (h : Nat) :
    (removeP ps h).1 = getPoller ps h := by
  induction ps with
  | nil => rfl
  | cons p t ih =>
    by_cases h0 : p.handle = h
    · rw [getPoller_cons_pos h0]
      simp [removeP, h0]
    · rw [getPoller_cons_neg h0]
      simp only [removeP, if_neg (by simp [h0] : ¬(p.handle == h) = true)]
      exact ih

/-! ### setPollerQueue / getQueue lemmas -/

theorem findSet_self {ps : List PollerData} {P : Nat} {pd : PollerData}
    (hp : getPoller ps P = some pd) (q : List Event) :
    getPoller (ps.map (fun x => if x.handle == P then { x with queue := q } else x)) P =
      some { pd with queue := q } := by
  induction ps with
  | nil => simp [getPoller] at hp
  | cons p t ih =>
    by_cases h0 : p.handle = P
    · rw [getPoller_cons_pos h0] at hp
      obtain rfl := Option.some.inj hp
      simp only [List.map_cons, if_pos (by simp [h0] : (p.handle == P) = true)]
      exact getPoller_cons_pos (show ({ p with queue := q } : PollerData).handle = P from h0)
    · rw [getPoller_cons_neg h0] at hp
      simp only [List.map_cons, if_neg (by simp [h0] : ¬(p.handle == P) = true)]
      exact (getPoller_cons_neg h0).trans (ih hp)

theorem getPoller_set_self {st : ListenerStorage} {P : Nat} {pd : PollerData}
    (hp : getPoller st.pollers P = some pd) (q : List Event) :
    getPoller (setPollerQueue st P q).pollers P = some { pd with queue := q } :=
  findSet_self hp q

theorem findSet_ne {ps : List PollerData} {P P' : Nat} (hne : P' ≠ P) (q : List Event) :
    getPoller (ps.map (fun x => if x.handle == P then { x with queue := q } else x)) P' =
      getPoller ps P' := by
  induction ps with
  | nil => rfl
  | cons p t ih =>
    by_cases h0 : p.handle = P
    · have h1 : ¬p.handle = P' := by
        rw [h0]
        exact fun hc => hne hc.symm
      simp only [List.map_cons, if_pos (by simp [h0] : (p.handle == P) = true)]
      rw [getPoller_cons_neg h1]
      exact (getPoller_cons_neg
        (show ¬({ p with queue := q } : PollerData).handle = P' from h1)).trans ih
    · simp only [List.map_cons, if_neg (by simp [h0] : ¬(p.handle == P) = true)]
      by_cases h1 : p.handle = P'
      · rw [getPoller_cons_pos h1, getPoller_cons_pos h1]
      · rw [getPoller_cons_neg h1, getPoller_cons_neg h1]
        exact ih

theorem getPoller_set_ne {st : ListenerStorage} {P P' : Nat} (hne : P' ≠ P) (q : List Event) :
    getPoller (setPollerQueue st P q).pollers P' = getPoller st.pollers P' :=
  findSet_ne hne q

theorem getQueue_set_same {st : ListenerStorage} {P : Nat} {pd : PollerData}
    (hp : getPoller st.pollers P = some pd) :
    ∀ x, getQueue (setPollerQueue st P pd.queue) x = getQueue st x := by
  intro x
  by_cases hx : x = P
  · subst hx
    simp [getQueue, getPoller_set_self hp, hp]
  · simp [getQueue, getPoller_set_ne hx]

/-! ### addIndex / removeIndex lemmas -/

theorem mem_addIndex (xs : List Nat) (h a : Nat) :
    a ∈ addIndex xs h ↔ a ∈ xs ∨ a = h := by
  unfold addIndex
  by_cases hm : h ∈ xs
  · simp only [if_pos hm]
    constructor
    · exact fun ha => Or.inl ha
    · rintro (ha | rfl)
      · exact ha
      · exact hm
  · simp [if_neg hm]

theorem mem_removeIndex (xs : List Nat) (h a : Nat) :
    a ∈ removeIndex xs h ↔ a ∈ xs ∧ a ≠ h := by
  simp [removeIndex, List.mem_filter]

/-! ### Fold-translation lemmas: each `doSignal` source loop appends a
(possibly empty) block of surviving events per source, and its `count`
equals the number of survivors. -/

/-- The surviving events a finish-predicate lets through for one appended
event: the event itself when there is no predicate, the (possibly rewritten)
event when the predicate keeps it, nothing when it vetoes. -/
def keepEvent (finishEvent : Option FinishEventFunc) (mask : Nat) (e : Event) : List Event :=
  match finishEvent with
  | none => [e]
  | some f =>
    let r := f mask e
    if r.1 then [r.2] else []

/-- Events contributed by one source in the ConnectionInfo `doSignal`. -/
def sourceEventsConn (listenerHandle flags : Nat) (infos : List ConnectionInfo)
    (s : Option FinishEventFunc × Nat) : List Event :=
  if flags &&& s.2 ≠ 0 then
    infos.map (fun info => ⟨listenerHandle, flags, EventPayload.conn info⟩)
  else []

/-- Events contributed by one source in the TopicInfo `doSignal`. -/
def sourceEventsTopic (listenerHandle flags : Nat) (infos : List TopicInfo)
    (s : Option FinishEventFunc × Nat) : List Event :=
  if flags &&& s.2 ≠ 0 then
    infos.flatMap (fun info => keepEvent s.1 s.2 ⟨listenerHandle, flags, EventPayload.topic info⟩)
  else []

/-- Events contributed by one source in the value `doSignal`. -/
def sourceEventsValue (listenerHandle flags topic subentry value : Nat)
    (s : Option FinishEventFunc × Nat) : List Event :=
  if flags &&& s.2 ≠ 0 then
    keepEvent s.1 s.2 ⟨listenerHandle, flags, EventPayload.value topic subentry value⟩
  else []

/-- Events contributed by one source in the log `doSignal`. -/
def sourceEventsLog (listenerHandle flags level : Nat) (filename : String) (line : Nat)
    (message : String) (s : Option FinishEventFunc × Nat) : List Event :=
  if flags &&& s.2 ≠ 0 then
    keepEvent s.1 s.2 ⟨listenerHandle, flags, EventPayload.log level filename line message⟩
  else []

theorem foldl_append_blocks {α β : Type} (step : List α → β → List α) (g : β → List α)
    (hstep : ∀ q s, step q s = q ++ g s) :
    ∀ (xs : List β) (q : List α), xs.foldl step q = q ++ xs.flatMap g := by
  intro xs
  induction xs with
  | nil => simp
  | cons x t ih =>
    intro q
    simp only [List.foldl_cons, List.flatMap_cons, hstep]
    rw [ih]
    simp [List.append_assoc]

theorem foldl_growth {β : Type} (step : List Event × Nat → β → List Event × Nat)
    (g : β → List Event)
    (hstep : ∀ q c s, step (q, c) s = (q ++ g s, c + (g s).length)) :
    ∀ (xs : List β) (q : List Event) (c : Nat),
      xs.foldl step (q, c) = (q ++ xs.flatMap g, c + (xs.flatMap g).length) := by
  intro xs
  induction xs with
  | nil => simp
  | cons x t ih =>
    intro q c
    simp only [List.foldl_cons, List.flatMap_cons, hstep]
    rw [ih]
    simp [List.append_assoc, List.length_append, Nat.add_assoc]

theorem foldl_append_map {α β : Type} (f : β → α) :
    ∀ (xs : List β) (q : List α),
      xs.foldl (fun q x => q ++ [f x]) q = q ++ xs.map f := by
  intro xs
  induction xs with
  | nil => simp
  | cons x t ih =>
    intro q
    simp only [List.foldl_cons, List.map_cons]
    rw [ih]
    simp

theorem connStep_eq (lh flags : Nat) (infos : List ConnectionInfo) (q : List Event)
    (s : Option FinishEventFunc × Nat) :
    connStep lh flags infos q s = q ++ sourceEventsConn lh flags infos s := by
  unfold connStep sourceEventsConn
  by_cases hm : flags &&& s.2 ≠ 0
  · rw [if_pos hm, if_pos hm]
    exact foldl_append_map _ infos q
  · rw [if_neg hm, if_neg hm]
    simp

theorem topicInfoStep_eq (lh flags : Nat) (fe : Option FinishEventFunc) (mask : Nat)
    (q : List Event) (c : Nat) (info : TopicInfo) :
    topicInfoStep lh flags fe mask (q, c) info =
      (q ++ keepEvent fe mask ⟨lh, flags, EventPayload.topic info⟩,
       c + (keepEvent fe mask ⟨lh, flags, EventPayload.topic info⟩).length) := by
  unfold topicInfoStep keepEvent
  match fe with
  | none => rfl
  | some f =>
    by_cases hk : (f mask ⟨lh, flags, EventPayload.topic info⟩).1
    · simp [hk]
    · simp [hk]

theorem topicStep_eq (lh flags : Nat) (infos : List TopicInfo) (q : List Event) (c : Nat)
    (s : Option FinishEventFunc × Nat) :
    topicStep lh flags infos (q, c) s =
      (q ++ sourceEventsTopic lh flags infos s,
       c + (sourceEventsTopic lh flags infos s).length) := by
  unfold topicStep sourceEventsTopic
  by_cases hm : flags &&& s.2 ≠ 0
  · rw [if_pos hm, if_pos hm]
    exact foldl_growth _ _ (topicInfoStep_eq lh flags s.1 s.2) infos q c
  · rw [if_neg hm, if_neg hm]
    simp

theorem valueStep_eq (lh flags topic subentry value : Nat) (q : List Event) (c : Nat)
    (s : Option FinishEventFunc × Nat) :
    valueStep lh flags topic subentry value (q, c) s =
      (q ++ sourceEventsValue lh flags topic subentry value s,
       c + (sourceEventsValue lh flags topic subentry value s).length) := by
  unfold valueStep sourceEventsValue keepEvent
  by_cases hm : flags &&& s.2 ≠ 0
  · rw [if_pos hm, if_pos hm]
    match hs : s.1 with
    | none => rfl
    | some f =>
      by_cases hk : (f s.2 ⟨lh, flags, EventPayload.value topic subentry value⟩).1
      · simp [hk]
      · simp [hk]
  · rw [if_neg hm, if_neg hm]
    simp

theorem logStep_eq (lh flags level : Nat) (filename : String) (line : Nat) (message : String)
    (q : List Event) (c : Nat) (s : Option FinishEventFunc × Nat) :
    logStep lh flags level filename line message (q, c) s =
      (q ++ sourceEventsLog lh flags level filename line message s,
       c + (sourceEventsLog lh flags level filename line message s).length) := by
  unfold logStep sourceEventsLog keepEvent
  by_cases hm : flags &&& s.2 ≠ 0
  · rw [if_pos hm, if_pos hm]
    match hs : s.1 with
    | none => rfl
    | some f =>
      by_cases hk : (f s.2 ⟨lh, flags, EventPayload.log level filename line message⟩).1
      · simp [hk]
      · simp [hk]
  · rw [if_neg hm, if_neg hm]
    simp

/-! ### Characterizations of the four `doSignal` bodies -/

theorem doSignalValue_eq {st : ListenerStorage} {l : ListenerData}
    {flags topic subentry value : Nat} {pd : PollerData}
    (hm : flags &&& l.eventMask ≠ 0) (hp : getPoller st.pollers l.poller = some pd) :
    doSignalValue st l flags topic subentry value =
      (setPollerQueue st l.poller
        (pd.queue ++ l.sources.flatMap (sourceEventsValue l.handle flags topic subentry value)),
       if (l.sources.flatMap (sourceEventsValue l.handle flags topic subentry value)).isEmpty then []
       else [Sig.listener l.handle, Sig.poller l.poller]) := by
  unfold doSignalValue
  rw [if_pos hm, hp]
  simp only
  rw [foldl_growth _ _ (valueStep_eq l.handle flags topic subentry value) l.sources pd.queue 0]
  by_cases happ : (l.sources.flatMap (sourceEventsValue l.handle flags topic subentry value)) = []
  · simp [happ]
  · have hl : 0 < (l.sources.flatMap (sourceEventsValue l.handle flags topic subentry value)).length :=
      List.length_pos.mpr happ
    simp only [Nat.zero_add]
    rw [if_pos hl, if_neg (by simp [happ])]

theorem doSignalTopic_eq {st : ListenerStorage} {l : ListenerData}
    {flags : Nat} {infos : List TopicInfo} {pd : PollerData}
    (hm : flags &&& l.eventMask ≠ 0) (hp : getPoller st.pollers l.poller = some pd) :
    doSignalTopic st l flags infos =
      (setPollerQueue st l.poller
        (pd.queue ++ l.sources.flatMap (sourceEventsTopic l.handle flags infos)),
       if (l.sources.flatMap (sourceEventsTopic l.handle flags infos)).isEmpty then []
       else [Sig.listener l.handle, Sig.poller l.poller]) := by
  unfold doSignalTopic
  rw [if_pos hm, hp]
  simp only
  rw [foldl_growth _ _ (topicStep_eq l.handle flags infos) l.sources pd.queue 0]
  by_cases happ : (l.sources.flatMap (sourceEventsTopic l.handle flags infos)) = []
  · simp [happ]
  · have hl : 0 < (l.sources.flatMap (sourceEventsTopic l.handle flags infos)).length :=
      List.length_pos.mpr happ
    simp only [Nat.zero_add]
    rw [if_pos hl, if_neg (by simp [happ])]

theorem doSignalLog_eq {st : ListenerStorage} {l : ListenerData}
    {flags level : Nat} {filename : String} {line : Nat} {message : String} {pd : PollerData}
    (hm : flags &&& l.eventMask ≠ 0) (hp : getPoller st.pollers l.poller = some pd) :
    doSignalLog st l flags level filename line message =
      (setPollerQueue st l.poller
        (pd.queue ++ l.sources.flatMap (sourceEventsLog l.handle flags level filename line message)),
       if (l.sources.flatMap (sourceEventsLog l.handle flags level filename line message)).isEmpty then []
       else [Sig.listener l.handle, Sig.poller l.poller]) := by
  unfold doSignalLog
  rw [if_pos hm, hp]
  simp only
  rw [foldl_growth _ _ (logStep_eq l.handle flags level filename line message) l.sources pd.queue 0]
  by_cases happ : (l.sources.flatMap (sourceEventsLog l.handle flags level filename line message)) = []
  · simp [happ]
  · have hl : 0 < (l.sources.flatMap (sourceEventsLog l.handle flags level filename line message)).length :=
      List.length_pos.mpr happ
    simp only [Nat.zero_add]
    rw [if_pos hl, if_neg (by simp [happ])]

theorem doSignalConn_eq {st : ListenerStorage} {l : ListenerData}
    {flags : Nat} {infos : List ConnectionInfo} {pd : PollerData}
    (hm : flags &&& l.eventMask ≠ 0) (hp : getPoller st.pollers l.poller = some pd) :
    doSignalConn st l flags infos =
      (setPollerQueue st l.poller
        (pd.queue ++ l.sources.flatMap (sourceEventsConn l.handle flags infos)),
       [Sig.listener l.handle, Sig.poller l.poller]) := by
  unfold doSignalConn
  rw [if_pos hm, hp]
  simp only
  rw [foldl_append_blocks _ _ (connStep_eq l.handle flags infos) l.sources pd.queue]

theorem doSignalValue_of_nomask {st : ListenerStorage} {l : ListenerData}
    {flags topic subentry value : Nat} (hm : flags &&& l.eventMask = 0) :
    doSignalValue st l flags topic subentry value = (st, []) := by
  unfold doSignalValue
  rw [if_neg (by simp [hm])]

theorem doSignalTopic_of_nomask {st : ListenerStorage} {l : ListenerData}
    {flags : Nat} {infos : List TopicInfo} (hm : flags &&& l.eventMask = 0) :
    doSignalTopic st l flags infos = (st, []) := by
  unfold doSignalTopic
  rw [if_neg (by simp [hm])]

theorem doSignalLog_of_nomask {st : ListenerStorage} {l : ListenerData}
    {flags level : Nat} {filename : String} {line : Nat} {message : String}
    (hm : flags &&& l.eventMask = 0) :
    doSignalLog st l flags level filename line message = (st, []) := by
  unfold doSignalLog
  rw [if_neg (by simp [hm])]

theorem doSignalConn_of_nomask {st : ListenerStorage} {l : ListenerData}
    {flags : Nat} {infos : List ConnectionInfo} (hm : flags &&& l.eventMask = 0) :
    doSignalConn st l flags infos = (st, []) := by
  unfold doSignalConn
  rw [if_neg (by simp [hm])]

/-! ### Frame lemmas: `Notify` only ever changes poller queues -/

/-- Two states agree on everything except (possibly) the poller queues. -/
def sameCore (a b : ListenerStorage) : Prop :=
  a.listeners = b.listeners ∧ a.connListeners = b.connListeners ∧
  a.topicListeners = b.topicListeners ∧ a.valueListeners = b.valueListeners ∧
  a.logListeners = b.logListeners ∧ a.thread = b.thread ∧
  a.nextListenerHandle = b.nextListenerHandle ∧ a.nextPollerHandle = b.nextPollerHandle

theorem sameCore_refl (st : ListenerStorage) : sameCore st st :=
  ⟨rfl, rfl, rfl, rfl, rfl, rfl, rfl, rfl⟩

theorem sameCore_trans {a b c : ListenerStorage} (h1 : sameCore a b) (h2 : sameCore b c) :
    sameCore a c := by
  obtain ⟨x1, x2, x3, x4, x5, x6, x7, x8⟩ := h1
  obtain ⟨y1, y2, y3, y4, y5, y6, y7, y8⟩ := h2
  exact ⟨x1.trans y1, x2.trans y2, x3.trans y3, x4.trans y4, x5.trans y5,
    x6.trans y6, x7.trans y7, x8.trans y8⟩

theorem sameCore_setPollerQueue (st : ListenerStorage) (P : Nat) (q : List Event) :
    sameCore (setPollerQueue st P q) st :=
  ⟨rfl, rfl, rfl, rfl, rfl, rfl, rfl, rfl⟩

theorem sameCore_doSignalConn (st : ListenerStorage) (l : ListenerData) (flags : Nat)
    (infos : List ConnectionInfo) : sameCore (doSignalConn st l flags infos).1 st := by
  unfold doSignalConn
  split
  · split
    · exact sameCore_setPollerQueue st l.poller _
    · exact sameCore_refl st
  · exact sameCore_refl st

theorem sameCore_doSignalTopic (st : ListenerStorage) (l : ListenerData) (flags : Nat)
    (infos : List TopicInfo) : sameCore (doSignalTopic st l flags infos).1 st := by
  unfold doSignalTopic
  split
  · split
    · exact sameCore_setPollerQueue st l.poller _
    · exact sameCore_refl st
  · exact sameCore_refl st

theorem sameCore_doSignalValue (st : ListenerStorage) (l : ListenerData)
    (flags topic subentry value : Nat) :
    sameCore (doSignalValue st l flags topic subentry value).1 st := by
  unfold doSignalValue
  split
  · split
    · exact sameCore_setPollerQueue st l.poller _
    · exact sameCore_refl st
  · exact sameCore_refl st

theorem sameCore_doSignalLog (st : ListenerStorage) (l : ListenerData)
    (flags level : Nat) (filename : String) (line : Nat) (message : String) :
    sameCore (doSignalLog st l flags level filename line message).1 st := by
  unfold doSignalLog
  split
  · split
    · exact sameCore_setPollerQueue st l.poller _
    · exact sameCore_refl st
  · exact sameCore_refl st

theorem sameCore_foldl {β : Type} (step : ListenerStorage × List Sig → β → ListenerStorage × List Sig)
    (hstep : ∀ acc x, sameCore (step acc x).1 acc.1) :
    ∀ (xs : List β) (acc : ListenerStorage × List Sig),
      sameCore (xs.foldl step acc).1 acc.1 := by
  intro xs
  induction xs with
  | nil => exact fun acc => sameCore_refl _
  | cons x t ih =>
    intro acc
    exact sameCore_trans (ih (step acc x)) (hstep acc x)

theorem sameCore_notifyStepConn (flags : Nat) (infos : List ConnectionInfo) :
    ∀ acc h, sameCore (notifyStepConn flags infos acc h).1 acc.1 := by
  intro acc h
  unfold notifyStepConn
  split
  · exact sameCore_doSignalConn acc.1 _ flags infos
  · exact sameCore_refl _

theorem sameCore_notifyStepTopic (flags : Nat) (infos : List TopicInfo) :
    ∀ acc h, sameCore (notifyStepTopic flags infos acc h).1 acc.1 := by
  intro acc h
  unfold notifyStepTopic
  split
  · exact sameCore_doSignalTopic acc.1 _ flags infos
  · exact sameCore_refl _

theorem sameCore_notifyStepValue (flags topic subentry value : Nat) :
    ∀ acc h, sameCore (notifyStepValue flags topic subentry value acc h).1 acc.1 := by
  intro acc h
  unfold notifyStepValue
  split
  · exact sameCore_doSignalValue acc.1 _ flags topic subentry value
  · exact sameCore_refl _

theorem sameCore_notifyStepLog (flags level : Nat) (filename : String) (line : Nat)
    (message : String) :
    ∀ acc h, sameCore (notifyStepLog flags level filename line message acc h).1 acc.1 := by
  intro acc h
  unfold notifyStepLog
  split
  · exact sameCore_doSignalLog acc.1 _ flags level filename line message
  · exact sameCore_refl _

theorem sameCore_NotifyConn (st : ListenerStorage) (handles : List Nat) (flags : Nat)
    (infos : List ConnectionInfo) : sameCore (NotifyConn st handles flags infos).1 st := by
  unfold NotifyConn
  split
  · exact sameCore_refl st
  · split
    · exact sameCore_foldl _ (sameCore_notifyStepConn flags infos) st.connListeners (st, [])
    · exact sameCore_foldl _ (sameCore_notifyStepConn flags infos) handles (st, [])

theorem sameCore_NotifyTopic (st : ListenerStorage) (handles : List Nat) (flags : Nat)
    (infos : List TopicInfo) : sameCore (NotifyTopic st handles flags infos).1 st := by
  unfold NotifyTopic
  split
  · exact sameCore_refl st
  · split
    · exact sameCore_foldl _ (sameCore_notifyStepTopic flags infos) st.topicListeners (st, [])
    · exact sameCore_foldl _ (sameCore_notifyStepTopic flags infos) handles (st, [])

theorem sameCore_NotifyValue (st : ListenerStorage) (handles : List Nat)
    (flags topic subentry value : Nat) :
    sameCore (NotifyValue st handles flags topic subentry value).1 st := by
  unfold NotifyValue
  split
  · exact sameCore_refl st
  · split
    · exact sameCore_foldl _ (sameCore_notifyStepValue flags topic subentry value)
        st.valueListeners (st, [])
    · exact sameCore_foldl _ (sameCore_notifyStepValue flags topic subentry value) handles (st, [])

theorem sameCore_NotifyLog (st : ListenerStorage) (flags level : Nat) (filename : String)
    (line : Nat) (message : String) :
    sameCore (NotifyLog st flags level filename line message).1 st := by
  unfold NotifyLog
  split
  · exact sameCore_refl st
  · exact sameCore_foldl _ (sameCore_notifyStepLog flags level filename line message)
      st.logListeners (st, [])

/-! ### The storage invariant -/

/-- An event mask places a listener in the category index guarded by the
constants `c1`, `c2` (the two constants coincide for the connection, topic
and value categories; the log category tests both `NT_EVENT_LOGMESSAGE` and
the extended sub-level range `0x1ff0000`). -/
def maskHits (eventMask c1 c2 : Nat) : Prop :=
  eventMask &&& c1 ≠ 0 ∨ eventMask &&& c2 ≠ 0

instance (eventMask c1 c2 : Nat) : Decidable (maskHits eventMask c1 c2) := by
  unfold maskHits
  infer_instance

/-- A category index is consistent with the listener table: a handle is in
the index exactly when a registered listener with that handle has a mask
intersecting the category's bits. -/
def idxOk (ls : List ListenerData) (idx : List Nat) (c1 c2 : Nat) : Prop :=
  ∀ h, h ∈ idx ↔ ∃ l ∈ ls, l.handle = h ∧ maskHits l.eventMask c1 c2

/-- The storage invariant maintained by every public operation. -/
structure Inv (st : ListenerStorage) : Prop where
  lNodup : (st.listeners.map (fun l => l.handle)).Nodup
  lBound : ∀ l ∈ st.listeners, l.handle < st.nextListenerHandle
  maskEq : ∀ l ∈ st.listeners, l.eventMask = orMasks l.sources
  connIdx : idxOk st.listeners st.connListeners NT_EVENT_CONNECTION NT_EVENT_CONNECTION
  topicIdx : idxOk st.listeners st.topicListeners NT_EVENT_TOPIC NT_EVENT_TOPIC
  valueIdx : idxOk st.listeners st.valueListeners NT_EVENT_VALUE_ALL NT_EVENT_VALUE_ALL
  logIdx : idxOk st.listeners st.logListeners NT_EVENT_LOGMESSAGE 0x1ff0000

theorem maskHits_zero (c1 c2 : Nat) : ¬maskHits 0 c1 c2 := by
  simp [maskHits, Nat.zero_and]

theorem maskHits_lor (a b c1 c2 : Nat) :
    maskHits (a ||| b) c1 c2 ↔ maskHits a c1 c2 ∨ maskHits b c1 c2 := by
  unfold maskHits
  rw [lor_land_ne_zero, lor_land_ne_zero]
  tauto

theorem maskHits_delta {o c1 c2 : Nat} (m : Nat) (hno : ¬maskHits o c1 c2) :
    maskHits (m ^^^ (m &&& o)) c1 c2 ↔ maskHits m c1 c2 := by
  unfold maskHits at *
  push_neg at hno
  rw [delta_land_of_disjoint m o c1 hno.1, delta_land_of_disjoint m o c2 hno.2]

theorem maskHits_of_delta {m o c1 c2 : Nat} (hd : maskHits (m ^^^ (m &&& o)) c1 c2) :
    maskHits m c1 c2 := by
  rcases hd with h | h
  · exact Or.inl (land_ne_zero_of_delta m o c1 h)
  · exact Or.inr (land_ne_zero_of_delta m o c2 h)

/-- After `Activate` updates a listener's mask and conditionally adds it to a
category index, that index is again consistent. -/
theorem idxOk_activate {ls : List ListenerData} {idx : List Nat} {c1 c2 H m : Nat}
    {fe : Option FinishEventFunc} {listener : ListenerData}
    (hg : getL ls H = some listener)
    (hnd : (ls.map (fun l => l.handle)).Nodup)
    (hok : idxOk ls idx c1 c2) :
    idxOk (ls.map (fun l => if l.handle == H then
        { l with sources := l.sources ++ [(fe, m)], eventMask := l.eventMask ||| m } else l))
      (if maskHits (m ^^^ (m &&& listener.eventMask)) c1 c2 then addIndex idx H else idx)
      c1 c2 := by
  have hmem := getL_mem hg
  have hH := getL_handle hg
  have huniq := getL_unique hnd hg
  intro h0
  by_cases h0H : h0 = H
  · subst h0H
    have hrhs : (∃ l' ∈ ls.map (fun l => if l.handle == h0 then
          { l with sources := l.sources ++ [(fe, m)], eventMask := l.eventMask ||| m } else l),
        l'.handle = h0 ∧ maskHits l'.eventMask c1 c2) ↔
        maskHits (listener.eventMask ||| m) c1 c2 := by
      constructor
      · rintro ⟨l', hl', hh', hmask'⟩
        obtain ⟨l, hl, hupd⟩ := List.mem_map.mp hl'
        by_cases hc : l.handle = h0
        · have : l = listener := huniq l hl hc
          subst this
          rw [if_pos (by simp [hc])] at hupd
          rw [← hupd] at hmask'
          exact hmask'
        · rw [if_neg (by simp [hc])] at hupd
          subst hupd
          exact absurd hh' hc
      · intro hmask'
        have hmem' : (if listener.handle == h0 then
              { listener with sources := listener.sources ++ [(fe, m)],
                              eventMask := listener.eventMask ||| m }
            else listener) ∈ ls.map (fun l => if l.handle == h0 then
              { l with sources := l.sources ++ [(fe, m)], eventMask := l.eventMask ||| m }
            else l) :=
          List.mem_map.mpr ⟨listener, hmem, rfl⟩
        rw [if_pos (by simp [hH])] at hmem'
        exact ⟨_, hmem', by simpa using hH, hmask'⟩
    rw [hrhs]
    by_cases hd : maskHits (m ^^^ (m &&& listener.eventMask)) c1 c2
    · rw [if_pos hd]
      have hmm : maskHits m c1 c2 := maskHits_of_delta hd
      constructor
      · intro _
        rw [maskHits_lor]
        exact Or.inr hmm
      · intro _
        exact (mem_addIndex idx h0 h0).mpr (Or.inr rfl)
    · rw [if_neg hd]
      have hlhs : h0 ∈ idx ↔ maskHits listener.eventMask c1 c2 := by
        rw [hok h0]
        constructor
        · rintro ⟨l, hl, hh, hm'⟩
          have : l = listener := huniq l hl hh
          subst this
          exact hm'
        · intro hm'
          exact ⟨listener, hmem, hH, hm'⟩
      rw [hlhs, maskHits_lor]
      by_cases ho : maskHits listener.eventMask c1 c2
      · simp [ho]
      · rw [maskHits_delta m ho] at hd
        simp [ho, hd]
  · have hlhs : h0 ∈ (if maskHits (m ^^^ (m &&& listener.eventMask)) c1 c2 then
        addIndex idx H else idx) ↔ h0 ∈ idx := by
      by_cases hd : maskHits (m ^^^ (m &&& listener.eventMask)) c1 c2
      · rw [if_pos hd, mem_addIndex]
        simp [h0H]
      · rw [if_neg hd]
    rw [hlhs, hok h0]
    constructor
    · rintro ⟨l, hl, hh, hm'⟩
      have hc : ¬l.handle = H := by
        rw [hh]
        exact h0H
      refine ⟨l, List.mem_map.mpr ⟨l, hl, by rw [if_neg (by simp [hc])]⟩, hh, hm'⟩
    · rintro ⟨l', hl', hh', hm'⟩
      obtain ⟨l, hl, hupd⟩ := List.mem_map.mp hl'
      by_cases hc : l.handle = H
      · rw [if_pos (by simp [hc])] at hupd
        rw [← hupd] at hh'
        simp only at hh'
        exact absurd (hh' ▸ hc : h0 = H) h0H
      · rw [if_neg (by simp [hc])] at hupd
        subst hupd
        exact ⟨l, hl, hh', hm'⟩

/-- Appending a freshly created listener (mask 0, no sources) keeps every
category index consistent: a zero mask hits no category. -/
theorem idxOk_snoc {ls : List ListenerData} {idx : List Nat} {c1 c2 : Nat}
    (newL : ListenerData) (hmask : newL.eventMask = 0)
    (hok : idxOk ls idx c1 c2) :
    idxOk (ls ++ [newL]) idx c1 c2 := by
  intro h0
  rw [hok h0]
  constructor
  · rintro ⟨l, hl, hh, hm'⟩
    exact ⟨l, List.mem_append.mpr (Or.inl hl), hh, hm'⟩
  · rintro ⟨l, hl, hh, hm'⟩
    rcases List.mem_append.mp hl with hl' | hl'
    · exact ⟨l, hl', hh, hm'⟩
    · rw [List.mem_singleton.mp hl'] at hm'
      rw [hmask] at hm'
      exact absurd hm' (maskHits_zero c1 c2)

/-- Removing a listener and conditionally filtering it out of a category
index keeps the index consistent. -/
theorem idxOk_remove {ls ls' : List ListenerData} {idx : List Nat} {c1 c2 H : Nat}
    {listener : ListenerData}
    (hr : removeL ls H = (some listener, ls'))
    (hnd : (ls.map (fun l => l.handle)).Nodup)
    (hok : idxOk ls idx c1 c2) :
    idxOk ls' (if maskHits listener.eventMask c1 c2 then removeIndex idx H else idx) c1 c2 := by
  obtain ⟨hH, s, t, hls, hls', hpre⟩ := removeL_some_decomp hr
  have hnotin : listener.handle ∉ t.map (fun l => l.handle) := by
    rw [hls] at hnd
    simp only [List.map_append, List.map_cons] at hnd
    rcases List.nodup_append.mp hnd with ⟨_, hnd2, _⟩
    exact (List.nodup_cons.mp hnd2).1
  have hmem_st : ∀ x, x ∈ ls' → x ∈ ls := by
    intro x hx
    rw [hls']  at hx
    rw [hls]
    rcases List.mem_append.mp hx with hx' | hx'
    · exact List.mem_append.mpr (Or.inl hx')
    · exact List.mem_append.mpr (Or.inr (List.mem_cons_of_mem _ hx'))
  have hhandle_ne : ∀ x ∈ ls', x.handle ≠ H := by
    intro x hx
    rw [hls'] at hx
    rcases List.mem_append.mp hx with hx' | hx'
    · exact hpre x hx'
    · intro hc
      exact hnotin (List.mem_map.mpr ⟨x, hx', hc.trans hH.symm⟩)
  have hback : ∀ x ∈ ls, x.handle ≠ H → x ∈ ls' := by
    intro x hx hne
    rw [hls] at hx
    rw [hls']
    rcases List.mem_append.mp hx with hx' | hx'
    · exact List.mem_append.mpr (Or.inl hx')
    · rcases List.mem_cons.mp hx' with rfl | hx''
      · exact absurd hH hne
      · exact List.mem_append.mpr (Or.inr hx'')
  intro h0
  by_cases h0H : h0 = H
  · subst h0H
    have hrhs : ¬∃ l ∈ ls', l.handle = h0 ∧ maskHits l.eventMask c1 c2 := by
      rintro ⟨l, hl, hh, _⟩
      exact hhandle_ne l hl hh
    by_cases hb : maskHits listener.eventMask c1 c2
    · rw [if_pos hb]
      simp only [mem_removeIndex]
      constructor
      · rintro ⟨_, hne⟩
        exact absurd rfl hne
      · intro hc
        exact absurd hc hrhs
    · rw [if_neg hb]
      constructor
      · intro hin
        obtain ⟨l, hl, hh, hm'⟩ := (hok h0).mp hin
        have : l = listener := getL_unique hnd (by rw [← removeL_fst, hr]) l hl hh
        subst this
        exact absurd hm' hb
      · intro hc
        exact absurd hc hrhs
  · have hlhs : h0 ∈ (if maskHits listener.eventMask c1 c2 then removeIndex idx H else idx) ↔
        h0 ∈ idx := by
      by_cases hb : maskHits listener.eventMask c1 c2
      · rw [if_pos hb, mem_removeIndex]
        simp [h0H]
      · rw [if_neg hb]
    rw [hlhs, hok h0]
    constructor
    · rintro ⟨l, hl, hh, hm'⟩
      refine ⟨l, hback l hl ?_, hh, hm'⟩
      rw [hh]
      exact h0H
    · rintro ⟨l, hl, hh, hm'⟩
      exact ⟨l, hmem_st l hl, hh, hm'⟩

/-! ### Invariant preservation by each public operation -/

theorem inv_of_fields {a b : ListenerStorage} (hinv : Inv b)
    (hL : a.listeners = b.listeners) (hc : a.connListeners = b.connListeners)
    (htp : a.topicListeners = b.topicListeners) (hv : a.valueListeners = b.valueListeners)
    (hlg : a.logListeners = b.logListeners) (hn : a.nextListenerHandle = b.nextListenerHandle) :
    Inv a := by
  refine ⟨?_, ?_, ?_, ?_, ?_, ?_, ?_⟩
  · rw [hL]
    exact hinv.lNodup
  · rw [hL, hn]
    exact hinv.lBound
  · rw [hL]
    exact hinv.maskEq
  · rw [hL, hc]
    exact hinv.connIdx
  · rw [hL, htp]
    exact hinv.topicIdx
  · rw [hL, hv]
    exact hinv.valueIdx
  · rw [hL, hlg]
    exact hinv.logIdx

theorem inv_of_sameCore {a b : ListenerStorage} (hs : sameCore a b) (hinv : Inv b) : Inv a :=
  inv_of_fields hinv hs.1 hs.2.1 hs.2.2.1 hs.2.2.2.1 hs.2.2.2.2.1 hs.2.2.2.2.2.2.1

theorem inv_initState : Inv initState := by
  refine ⟨?_, ?_, ?_, ?_, ?_, ?_, ?_⟩ <;> simp [initState, idxOk]

theorem ite_maskHits_single {α : Type} (e c : Nat) (x y : α) :
    (if e &&& c ≠ 0 then x else y) = (if maskHits e c c then x else y) := by
  by_cases hc : e &&& c ≠ 0
  · rw [if_pos hc, if_pos (show maskHits e c c from Or.inl hc)]
  · rw [if_neg hc, if_neg (show ¬maskHits e c c from fun hmm => hmm.elim hc hc)]

theorem ite_maskHits_pair {α : Type} (e c1 c2 : Nat) (x y : α) :
    (if e &&& c1 ≠ 0 ∨ e &&& c2 ≠ 0 then x else y) = (if maskHits e c1 c2 then x else y) := by
  by_cases hc : e &&& c1 ≠ 0 ∨ e &&& c2 ≠ 0
  · rw [if_pos hc, if_pos (show maskHits e c1 c2 from hc)]
  · rw [if_neg hc, if_neg (show ¬maskHits e c1 c2 from hc)]

theorem inv_Activate (st : ListenerStorage) (H m : Nat) (fe : Option FinishEventFunc)
    (hinv : Inv st) : Inv (Activate st H m fe) := by
  unfold Activate
  cases hg : getL st.listeners H with
  | none => exact hinv
  | some listener =>
    simp only
    have hhandles : ∀ (l : ListenerData),
        (if l.handle == H then
          { l with sources := l.sources ++ [(fe, m)], eventMask := l.eventMask ||| m }
         else l).handle = l.handle := by
      intro l
      by_cases hc : l.handle = H
      · rw [if_pos (by simp [hc])]
      · rw [if_neg (by simp [hc])]
    have hmap : (st.listeners.map (fun l => if l.handle == H then
          { l with sources := l.sources ++ [(fe, m)], eventMask := l.eventMask ||| m }
        else l)).map (fun l => l.handle) = st.listeners.map (fun l => l.handle) := by
      rw [List.map_map]
      exact List.map_congr_left (fun l _ => hhandles l)
    refine ⟨?_, ?_, ?_, ?_, ?_, ?_, ?_⟩
    · rw [hmap]
      exact hinv.lNodup
    · intro l' hl'
      obtain ⟨l, hl, hupd⟩ := List.mem_map.mp hl'
      have := hinv.lBound l hl
      rw [← hupd, hhandles l]
      exact this
    · intro l' hl'
      obtain ⟨l, hl, hupd⟩ := List.mem_map.mp hl'
      have hme := hinv.maskEq l hl
      by_cases hc : l.handle = H
      · rw [if_pos (by simp [hc])] at hupd
        rw [← hupd]
        simp only
        rw [orMasks_append, hme]
      · rw [if_neg (by simp [hc])] at hupd
        rw [← hupd]
        exact hme
    · dsimp only
      rw [ite_maskHits_single]
      exact idxOk_activate hg hinv.lNodup hinv.connIdx
    · dsimp only
      rw [ite_maskHits_single]
      exact idxOk_activate hg hinv.lNodup hinv.topicIdx
    · dsimp only
      rw [ite_maskHits_single]
      exact idxOk_activate hg hinv.lNodup hinv.valueIdx
    · dsimp only
      rw [ite_maskHits_pair]
      exact idxOk_activate hg hinv.lNodup hinv.logIdx

theorem inv_DoAddListener (st : ListenerStorage) (p : Nat) (hinv : Inv st) :
    Inv (DoAddListener st p).1 := by
  unfold DoAddListener
  cases hp : getPoller st.pollers p with
  | none => exact hinv
  | some pd =>
    simp only
    refine ⟨?_, ?_, ?_, ?_, ?_, ?_, ?_⟩
    · rw [List.map_append]
      rw [List.nodup_append]
      refine ⟨hinv.lNodup, List.nodup_singleton _, ?_⟩
      intro a ha hb
      obtain ⟨l, hl, hup⟩ := List.mem_map.mp ha
      have hlt := hinv.lBound l hl
      rw [List.mem_singleton.mp hb] at hup
      rw [hup] at hlt
      exact Nat.lt_irrefl _ hlt
    · intro l hl
      rcases List.mem_append.mp hl with hl' | hl'
      · exact Nat.lt_trans (hinv.lBound l hl') (Nat.lt_succ_self _)
      · rw [List.mem_singleton.mp hl']
        exact Nat.lt_succ_self _
    · intro l hl
      rcases List.mem_append.mp hl with hl' | hl'
      · exact hinv.maskEq l hl'
      · rw [List.mem_singleton.mp hl']
        rfl
    · exact idxOk_snoc _ rfl hinv.connIdx
    · exact idxOk_snoc _ rfl hinv.topicIdx
    · exact idxOk_snoc _ rfl hinv.valueIdx
    · exact idxOk_snoc _ rfl hinv.logIdx

theorem inv_CreateListenerPoller (st : ListenerStorage) (hinv : Inv st) :
    Inv (CreateListenerPoller st).1 :=
  inv_of_fields hinv rfl rfl rfl rfl rfl rfl

theorem inv_AddListenerCallback (st : ListenerStorage) (hinv : Inv st) :
    Inv (AddListenerCallback st).1 := by
  unfold AddListenerCallback
  cases ht : st.thread with
  | none =>
    simp only
    have h1 : Inv { (CreateListenerPoller st).1 with
        thread := some ⟨(CreateListenerPoller st).2, []⟩ } :=
      inv_of_fields (inv_CreateListenerPoller st hinv) rfl rfl rfl rfl rfl rfl
    have h2 := inv_DoAddListener _ (CreateListenerPoller st).2 h1
    by_cases hc : (DoAddListener { (CreateListenerPoller st).1 with
        thread := some ⟨(CreateListenerPoller st).2, []⟩ } (CreateListenerPoller st).2).2 ≠ 0
    · rw [if_pos hc]
      exact inv_of_fields h2 rfl rfl rfl rfl rfl rfl
    · rw [if_neg hc]
      exact h2
  | some t =>
    simp only
    rw [ht]
    dsimp only
    have h2 := inv_DoAddListener st t.poller hinv
    by_cases hc : (DoAddListener st t.poller).2 ≠ 0
    · rw [if_pos hc]
      exact inv_of_fields h2 rfl rfl rfl rfl rfl rfl
    · rw [if_neg hc]
      exact h2

theorem inv_removeListenerStep (acc : ListenerStorage × List (Nat × Nat)) (h : Nat)
    (hinv : Inv acc.1) : Inv (removeListenerStep acc h).1 := by
  unfold removeListenerStep
  rcases hr : removeL acc.1.listeners h with ⟨ro, ls'⟩
  cases ro with
  | none => exact hinv
  | some listener =>
    simp only
    obtain ⟨hH, s, t, hls, hls', hpre⟩ := removeL_some_decomp hr
    have hsub : ls'.Sublist acc.1.listeners := by
      rw [hls, hls']
      exact (List.sublist_cons_self listener t).append_left s
    refine ⟨?_, ?_, ?_, ?_, ?_, ?_, ?_⟩
    · exact List.Nodup.sublist (hsub.map (fun l => l.handle)) hinv.lNodup
    · intro l hl
      exact hinv.lBound l (hsub.subset hl)
    · intro l hl
      exact hinv.maskEq l (hsub.subset hl)
    · dsimp only
      rw [ite_maskHits_single]
      exact idxOk_remove hr hinv.lNodup hinv.connIdx
    · dsimp only
      rw [ite_maskHits_single]
      exact idxOk_remove hr hinv.lNodup hinv.topicIdx
    · dsimp only
      rw [ite_maskHits_single]
      exact idxOk_remove hr hinv.lNodup hinv.valueIdx
    · dsimp only
      rw [ite_maskHits_pair]
      exact idxOk_remove hr hinv.lNodup hinv.logIdx

theorem inv_foldRemove (hs : List Nat) :
    ∀ acc : ListenerStorage × List (Nat × Nat), Inv acc.1 →
      Inv (hs.foldl removeListenerStep acc).1 := by
  induction hs with
  | nil => exact fun acc h => h
  | cons x t ih =>
    intro acc hinv
    exact ih _ (inv_removeListenerStep acc x hinv)

theorem inv_DoRemoveListeners (st : ListenerStorage) (hs : List Nat) (hinv : Inv st) :
    Inv (DoRemoveListeners st hs).1 :=
  inv_foldRemove hs (st, []) hinv

theorem inv_DestroyListenerPoller (st : ListenerStorage) (P : Nat) (hinv : Inv st) :
    Inv (DestroyListenerPoller st P).1 := by
  unfold DestroyListenerPoller
  rcases hr : removeP st.pollers P with ⟨ro, ps'⟩
  cases ro with
  | none => exact hinv
  | some pd =>
    simp only
    exact inv_DoRemoveListeners _ _ (inv_of_fields hinv rfl rfl rfl rfl rfl rfl)

theorem inv_ReadListenerQueue (st : ListenerStorage) (P : Nat) (hinv : Inv st) :
    Inv (ReadListenerQueue st P).1 := by
  unfold ReadListenerQueue
  cases hp : getPoller st.pollers P with
  | none => exact hinv
  | some pd =>
    simp only
    exact inv_of_fields hinv rfl rfl rfl rfl rfl rfl

theorem inv_applyOp (st : ListenerStorage) (op : Op) (hinv : Inv st) :
    Inv (applyOp st op) := by
  cases op with
  | activate h mask fe => exact inv_Activate st h mask fe hinv
  | notifyConn hs flags infos =>
    exact inv_of_sameCore (sameCore_NotifyConn st hs flags infos) hinv
  | notifyTopic hs flags infos =>
    exact inv_of_sameCore (sameCore_NotifyTopic st hs flags infos) hinv
  | notifyValue hs flags topic subentry value =>
    exact inv_of_sameCore (sameCore_NotifyValue st hs flags topic subentry value) hinv
  | notifyLog flags level filename line message =>
    exact inv_of_sameCore (sameCore_NotifyLog st flags level filename line message) hinv
  | addListenerCallback => exact inv_AddListenerCallback st hinv
  | addListenerPoller p => exact inv_DoAddListener st p hinv
  | createListenerPoller => exact inv_CreateListenerPoller st hinv
  | destroyListenerPoller p => exact inv_DestroyListenerPoller st p hinv
  | readListenerQueue p => exact inv_ReadListenerQueue st p hinv
  | removeListener h => exact inv_removeListenerStep (st, []) h hinv
  | waitForListenerQueue => exact hinv

theorem inv_runOps (ops : List Op) :
    ∀ st : ListenerStorage, Inv st → Inv (runOps st ops) := by
  induction ops with
  | nil => exact fun st h => h
  | cons op t ih =>
    intro st hinv
    exact ih _ (inv_applyOp st op hinv)

theorem inv_reachable (ops : List Op) : Inv (runOps initState ops) :=
  inv_runOps ops initState inv_initState

/-! ### Pure view of `DoRemoveListeners`: its effect on the listener table
and its returned list, independent of index/thread bookkeeping. -/

/-- The listener-table and return-value components of removing a list of
handles in order. -/
def pureRemove : List Nat → List ListenerData → List ListenerData × List (Nat × Nat)
  | [], ls => (ls, [])
  | h :: hs, ls =>
    match removeL ls h with
    | (some l, ls') =>
      let r := pureRemove hs ls'
      (r.1, (h, l.eventMask) :: r.2)
    | (none, _) => pureRemove hs ls

theorem foldRemove_proj (hs : List Nat) :
    ∀ (st : ListenerStorage) (rv : List (Nat × Nat)),
      (hs.foldl removeListenerStep (st, rv)).1.listeners = (pureRemove hs st.listeners).1 ∧
      (hs.foldl removeListenerStep (st, rv)).2 = rv ++ (pureRemove hs st.listeners).2 ∧
      (hs.foldl removeListenerStep (st, rv)).1.pollers = st.pollers := by
  induction hs with
  | nil =>
    intro st rv
    exact ⟨rfl, by simp [pureRemove], rfl⟩
  | cons h t ih =>
    intro st rv
    rcases hr : removeL st.listeners h with ⟨ro, ls'⟩
    cases ro with
    | none =>
      have hstep : removeListenerStep (st, rv) h = (st, rv) := by
        unfold removeListenerStep
        rw [hr]
      have hpure : pureRemove (h :: t) st.listeners = pureRemove t st.listeners := by
        simp only [pureRemove]
        rw [hr]
      rw [List.foldl_cons, hstep, hpure]
      exact ih st rv
    | some listener =>
      have h1 : (removeListenerStep (st, rv) h).1.listeners = ls' := by
        unfold removeListenerStep
        rw [hr]
      have h2 : (removeListenerStep (st, rv) h).2 = rv ++ [(h, listener.eventMask)] := by
        unfold removeListenerStep
        rw [hr]
      have h3 : (removeListenerStep (st, rv) h).1.pollers = st.pollers := by
        unfold removeListenerStep
        rw [hr]
      have hpure1 : (pureRemove (h :: t) st.listeners).1 = (pureRemove t ls').1 := by
        simp only [pureRemove]
        rw [hr]
      have hpure2 : (pureRemove (h :: t) st.listeners).2 =
          (h, listener.eventMask) :: (pureRemove t ls').2 := by
        simp only [pureRemove]
        rw [hr]
      rw [List.foldl_cons]
      obtain ⟨i1, i2, i3⟩ := ih (removeListenerStep (st, rv) h).1 (removeListenerStep (st, rv) h).2
      rw [h1] at i1 i2
      rw [h3] at i3
      rw [show removeListenerStep (st, rv) h =
        ((removeListenerStep (st, rv) h).1, (removeListenerStep (st, rv) h).2) from rfl]
      refine ⟨?_, ?_, ?_⟩
      · rw [hpure1]
        exact i1
      · rw [hpure2, i2, h2]
        simp
      · exact i3

theorem pureRemove_cons_notmem (l : ListenerData) :
    ∀ (hs : List Nat) (ls : List ListenerData), (∀ h ∈ hs, l.handle ≠ h) →
      pureRemove hs (l :: ls) = (l :: (pureRemove hs ls).1, (pureRemove hs ls).2) := by
  intro hs
  induction hs with
  | nil => intro ls _; rfl
  | cons h t ih =>
    intro ls hne
    have hlh : ¬l.handle = h := hne h (List.mem_cons_self h t)
    have hne' : ∀ h' ∈ t, l.handle ≠ h' := fun h' hh' => hne h' (List.mem_cons_of_mem h hh')
    have hrl : removeL (l :: ls) h = ((removeL ls h).1, l :: (removeL ls h).2) := by
      simp only [removeL, if_neg (by simp [hlh] : ¬(l.handle == h) = true)]
    rcases hr : removeL ls h with ⟨ro, ls0⟩
    cases ro with
    | none =>
      have hrl' : removeL (l :: ls) h = (none, l :: ls0) := by
        rw [hrl, hr]
      have e1 : pureRemove (h :: t) (l :: ls) = pureRemove t (l :: ls) := by
        simp only [pureRemove]
        rw [hrl']
      have e2 : pureRemove (h :: t) ls = pureRemove t ls := by
        simp only [pureRemove]
        rw [hr]
      rw [e1, e2]
      exact ih ls hne'
    | some l0 =>
      have hrl' : removeL (l :: ls) h = (some l0, l :: ls0) := by
        rw [hrl, hr]
      have e1 : pureRemove (h :: t) (l :: ls) =
          ((pureRemove t (l :: ls0)).1, (h, l0.eventMask) :: (pureRemove t (l :: ls0)).2) := by
        simp only [pureRemove]
        rw [hrl']
      have e2 : pureRemove (h :: t) ls =
          ((pureRemove t ls0).1, (h, l0.eventMask) :: (pureRemove t ls0).2) := by
        simp only [pureRemove]
        rw [hr]
      rw [e1, e2, ih ls0 hne']

theorem pureRemove_filter (p : ListenerData → Bool) :
    ∀ (ls : List ListenerData), (ls.map (fun l => l.handle)).Nodup →
      pureRemove ((ls.filter p).map (fun l => l.handle)) ls =
        (ls.filter (fun l => !(p l)), (ls.filter p).map (fun l => (l.handle, l.eventMask))) := by
  intro ls
  induction ls with
  | nil => intro _; rfl
  | cons l t ih =>
    intro hnd
    rw [List.map_cons, List.nodup_cons] at hnd
    by_cases hp : p l = true
    · have hf1 : (l :: t).filter p = l :: t.filter p := by
        rw [List.filter_cons, if_pos hp]
      have hf2 : (l :: t).filter (fun x => !(p x)) = t.filter (fun x => !(p x)) := by
        rw [List.filter_cons, if_neg (by simp [hp])]
      have hr : removeL (l :: t) l.handle = (some l, t) := by
        simp only [removeL, if_pos (by simp : (l.handle == l.handle) = true)]
      have e1 : pureRemove (l.handle :: (t.filter p).map (fun x => x.handle)) (l :: t) =
          ((pureRemove ((t.filter p).map (fun x => x.handle)) t).1,
           (l.handle, l.eventMask) :: (pureRemove ((t.filter p).map (fun x => x.handle)) t).2) := by
        simp only [pureRemove]
        rw [hr]
      rw [hf1, hf2]
      simp only [List.map_cons]
      rw [e1, ih hnd.2]
    · have hf1 : (l :: t).filter p = t.filter p := by
        rw [List.filter_cons, if_neg hp]
      have hf2 : (l :: t).filter (fun x => !(p x)) = l :: t.filter (fun x => !(p x)) := by
        rw [List.filter_cons, if_pos (by simp [hp])]
      rw [hf1, hf2]
      have hne : ∀ h ∈ (t.filter p).map (fun x => x.handle), l.handle ≠ h := by
        intro h hh
        obtain ⟨x, hx, hxh⟩ := List.mem_map.mp hh
        intro hc
        exact hnd.1 (List.mem_map.mpr ⟨x, (List.mem_filter.mp hx).1, hxh.trans hc.symm⟩)
      rw [pureRemove_cons_notmem l _ t hne, ih hnd.2]

/-! ### Further helper lemmas for the claim theorems -/

theorem getL_removeL_none {ls : List ListenerData} {H : Nat} {listener : ListenerData}
    {ls' : List ListenerData} (hr : removeL ls H = (some listener, ls'))
    (hnd : (ls.map (fun l => l.handle)).Nodup) :
    getL ls' H = none := by
  obtain ⟨hH, s, t, hls, hls', hpre⟩ := removeL_some_decomp hr
  apply getL_eq_none
  intro x hx
  rw [hls'] at hx
  rcases List.mem_append.mp hx with hx' | hx'
  · exact hpre x hx'
  · intro hc
    rw [hls] at hnd
    simp only [List.map_append, List.map_cons] at hnd
    rcases List.nodup_append.mp hnd with ⟨_, hnd2, _⟩
    exact (List.nodup_cons.mp hnd2).1 (List.mem_map.mpr ⟨x, hx', hc.trans hH.symm⟩)

theorem flags_ne_zero_of_land {flags m : Nat} (hm : flags &&& m ≠ 0) : ¬flags = 0 := by
  intro hc
  rw [hc] at hm
  exact hm (Nat.zero_and m)

/-! ### Claim theorems -/

/-- C7: `Notify` with `flags == 0`, in all four payload overloads, changes
nothing and signals no wait handle. -/
theorem notify_zero_flags_noop (st : ListenerStorage) (handles : List Nat)
    (infos : List ConnectionInfo) (tinfos : List TopicInfo)
    (topic subentry value level line : Nat) (filename message : String) :
    NotifyConn st handles 0 infos = (st, []) ∧
    NotifyTopic st handles 0 tinfos = (st, []) ∧
    NotifyValue st handles 0 topic subentry value = (st, []) ∧
    NotifyLog st 0 level filename line message = (st, []) :=
  ⟨rfl, rfl, rfl, rfl⟩

/-- C5: `ReadListenerQueue` returns the poller's entire pending queue and
leaves it empty (so an immediately following read returns the empty list);
for a stale poller handle it returns the empty list and changes nothing. -/
theorem readListenerQueue_spec (st : ListenerStorage) (P : Nat) :
    (∀ pd, getPoller st.pollers P = some pd →
      ReadListenerQueue st P = (setPollerQueue st P [], pd.queue) ∧
      getQueue (ReadListenerQueue st P).1 P = [] ∧
      (ReadListenerQueue (ReadListenerQueue st P).1 P).2 = []) ∧
    (getPoller st.pollers P = none → ReadListenerQueue st P = (st, [])) := by
  constructor
  · intro pd hp
    have h1 : ReadListenerQueue st P = (setPollerQueue st P [], pd.queue) := by
      unfold ReadListenerQueue
      rw [hp]
    refine ⟨h1, ?_, ?_⟩
    · rw [h1]
      unfold getQueue
      rw [getPoller_set_self hp]
    · rw [h1]
      unfold ReadListenerQueue
      rw [getPoller_set_self hp]
  · intro hp
    unfold ReadListenerQueue
    rw [hp]

/-- Concrete storage used by witnesses: one poller (handle 1) whose queue
holds one topic event for listener 1. -/
def stW5 : ListenerStorage :=
  ⟨[⟨1, 1, 0x38, [(none, 0x38)]⟩], [⟨1, [⟨1, 8, EventPayload.topic 5⟩]⟩],
   [], [1], [], [], none, 2, 2⟩

theorem readListenerQueue_witness :
    ReadListenerQueue stW5 1 = (setPollerQueue stW5 1 [], [⟨1, 8, EventPayload.topic 5⟩]) ∧
    getQueue (ReadListenerQueue stW5 1).1 1 = [] ∧
    (ReadListenerQueue (ReadListenerQueue stW5 1).1 1).2 = [] :=
  (readListenerQueue_spec stW5 1).1 ⟨1, [⟨1, 8, EventPayload.topic 5⟩]⟩ rfl

/-- C8: `RemoveListener(H)` returns `[(H, formerEventMask)]` and removes the
listener when `H` is registered, and returns the empty list leaving the
state unchanged when `H` is stale; no error is signalled in either case. -/
theorem removeListener_spec (st : ListenerStorage) (H : Nat)
    (hnd : (st.listeners.map (fun l => l.handle)).Nodup) :
    (∀ l, getL st.listeners H = some l →
      (RemoveListener st H).2 = [(H, l.eventMask)] ∧
      (RemoveListener st H).1.listeners = (removeL st.listeners H).2 ∧
      getL (RemoveListener st H).1.listeners H = none) ∧
    (getL st.listeners H = none → RemoveListener st H = (st, [])) := by
  constructor
  · intro l hp
    have hfst : (removeL st.listeners H).1 = some l := by
      rw [removeL_fst]
      exact hp
    have hr : removeL st.listeners H = (some l, (removeL st.listeners H).2) := by
      rw [← hfst]
    have hstep2 : (removeListenerStep (st, []) H).2 = [] ++ [(H, l.eventMask)] := by
      unfold removeListenerStep
      rw [hr]
    have hstep1 : (removeListenerStep (st, []) H).1.listeners = (removeL st.listeners H).2 := by
      unfold removeListenerStep
      rw [hr]
    refine ⟨hstep2, hstep1, ?_⟩
    have hnone : getL (removeL st.listeners H).2 H = none := getL_removeL_none hr hnd
    rw [show (RemoveListener st H).1.listeners = (removeListenerStep (st, []) H).1.listeners
      from rfl, hstep1]
    exact hnone
  · intro hp
    have hr := removeL_none hp
    show removeListenerStep (st, []) H = (st, [])
    unfold removeListenerStep
    rw [hr]

/-- Concrete storage for the C8 witness: one registered listener. -/
def stW8 : ListenerStorage :=
  ⟨[⟨1, 1, 6, [(none, 6)]⟩], [⟨1, []⟩], [1], [], [], [], none, 2, 2⟩

theorem removeListener_witness :
    ((RemoveListener stW8 1).2 = [(1, 6)] ∧
     (RemoveListener stW8 1).1.listeners = (removeL stW8.listeners 1).2 ∧
     getL (RemoveListener stW8 1).1.listeners 1 = none) ∧
    RemoveListener stW8 2 = (stW8, []) :=
  ⟨(removeListener_spec stW8 1 (by decide)).1 ⟨1, 1, 6, [(none, 6)]⟩ rfl,
   (removeListener_spec stW8 2 (by decide)).2 rfl⟩

/-- C9: `WaitForListenerQueue` returns false immediately, without signalling
the wakeup event, when no dispatch thread exists; when the thread exists it
signals the wakeup event and returns the outcome of the wait on the waiter
handle (the external `wpi::WaitForObject` outcome is the oracle argument). -/
theorem waitForListenerQueue_spec (st : ListenerStorage) (w : Bool) :
    (st.thread = none → WaitForListenerQueue st w = (false, false)) ∧
    (∀ t, st.thread = some t → WaitForListenerQueue st w = (w, true)) := by
  constructor
  · intro ht
    unfold WaitForListenerQueue
    rw [ht]
  · intro t ht
    unfold WaitForListenerQueue
    rw [ht]

/-- Storage with a running dispatch thread, for the C9 witness. -/
def stW9 : ListenerStorage :=
  ⟨[], [⟨1, []⟩], [], [], [], [], some ⟨1, []⟩, 2, 2⟩

theorem waitForListenerQueue_witness :
    WaitForListenerQueue initState true = (false, false) ∧
    WaitForListenerQueue stW9 false = (false, true) :=
  ⟨(waitForListenerQueue_spec initState true).1 rfl,
   (waitForListenerQueue_spec stW9 false).2 ⟨1, []⟩ rfl⟩

/-- C4: `DestroyListenerPoller(P)` removes exactly the listeners whose
poller is `P` (in table order), leaves listeners of other pollers untouched,
returns one `(handle, eventMask)` pair per removed listener with the mask at
the moment of removal, and removes the poller; a stale poller handle
returns the empty list and changes nothing. -/
theorem destroyListenerPoller_spec (st : ListenerStorage) (P : Nat)
    (hnd : (st.listeners.map (fun l => l.handle)).Nodup) :
    (∀ pd, getPoller st.pollers P = some pd →
      (DestroyListenerPoller st P).2 =
        (st.listeners.filter (fun l => l.poller == P)).map (fun l => (l.handle, l.eventMask)) ∧
      (DestroyListenerPoller st P).1.listeners =
        st.listeners.filter (fun l => !(l.poller == P)) ∧
      (DestroyListenerPoller st P).1.pollers = (removeP st.pollers P).2) ∧
    (getPoller st.pollers P = none → DestroyListenerPoller st P = (st, [])) := by
  constructor
  · intro pd hp
    have hfst : (removeP st.pollers P).1 = some pd := by
      rw [removeP_fst]
      exact hp
    have hr : removeP st.pollers P = (some pd, (removeP st.pollers P).2) := by
      rw [← hfst]
    have hD : DestroyListenerPoller st P =
        ((st.listeners.filter (fun l => l.poller == P)).map (fun l => l.handle)).foldl
          removeListenerStep ({ st with pollers := (removeP st.pollers P).2 }, []) := by
      unfold DestroyListenerPoller
      rw [hr]
      rfl
    obtain ⟨j1, j2, j3⟩ := foldRemove_proj
      ((st.listeners.filter (fun l => l.poller == P)).map (fun l => l.handle))
      { st with pollers := (removeP st.pollers P).2 } []
    have hpure := pureRemove_filter (fun l => l.poller == P) st.listeners hnd
    rw [show ({ st with pollers := (removeP st.pollers P).2 } : ListenerStorage).listeners =
      st.listeners from rfl] at j1 j2
    rw [hpure] at j1 j2
    refine ⟨?_, ?_, ?_⟩
    · rw [hD, j2]
      simp
    · rw [hD, j1]
    · rw [hD, j3]
  · intro hp
    have hfst : (removeP st.pollers P).1 = none := by
      rw [removeP_fst]
      exact hp
    have hr : removeP st.pollers P = (none, (removeP st.pollers P).2) := by
      rw [← hfst]
    unfold DestroyListenerPoller
    rw [hr]

/-- Concrete storage for the C4 witness: two pollers, three listeners, two
of which are bound to poller 1. -/
def stW4 : ListenerStorage :=
  ⟨[⟨1, 1, 6, [(none, 6)]⟩, ⟨2, 2, 0x38, [(none, 0x38)]⟩, ⟨3, 1, 0xC0, [(none, 0xC0)]⟩],
   [⟨1, []⟩, ⟨2, []⟩], [1], [2], [3], [], none, 4, 3⟩

theorem destroyListenerPoller_witness :
    (DestroyListenerPoller stW4 1).2 =
      (stW4.listeners.filter (fun l => l.poller == 1)).map (fun l => (l.handle, l.eventMask)) ∧
    (DestroyListenerPoller stW4 1).1.listeners =
      stW4.listeners.filter (fun l => !(l.poller == 1)) ∧
    (DestroyListenerPoller stW4 1).1.pollers = (removeP stW4.pollers 1).2 :=
  (destroyListenerPoller_spec stW4 1 (by decide)).1 ⟨1, []⟩ rfl

/-- Concrete storage for the C2 counterexample: one listener registered for
connection events (mask `NT_EVENT_CONNECTION = 0x06`) on poller 1. -/
def stC2 : ListenerStorage :=
  ⟨[⟨1, 1, 6, [(none, 6)]⟩], [⟨1, []⟩], [1], [], [], [], none, 2, 2⟩

/-- C2 counterexample: a ConnectionInfo `Notify` with an empty info span
appends zero events, yet both the listener's and the poller's wait handles
are signalled (the state, queues included, is unchanged while the signal
list is non-empty), contradicting the claim that the handles "are not
signaled at all if ... zero events were appended". -/
theorem notifyConn_signals_without_events :
    NotifyConn stC2 [1] 6 [] = (stC2, [Sig.listener 1, Sig.poller 1]) := rfl

/-- C2 (amended): per target listener processed by a `Notify` overload whose
mask intersects `flags` (the `doSignal` body): in the topic, value and log
overloads the listener's and its poller's wait handles are each signalled
exactly once if at least one appended event survived the finish-predicates
and not at all if no event survived; in the ConnectionInfo overload they are
signalled exactly once whenever the mask intersects `flags`, even when zero
events were appended. -/
theorem doSignal_wakeup_spec :
    (∀ (st : ListenerStorage) (l : ListenerData) (flags topic subentry value : Nat)
        (pd : PollerData), flags &&& l.eventMask ≠ 0 →
      getPoller st.pollers l.poller = some pd →
      ∃ app, (doSignalValue st l flags topic subentry value).1 =
          setPollerQueue st l.poller (pd.queue ++ app) ∧
        (doSignalValue st l flags topic subentry value).2 =
          (if app.isEmpty then [] else [Sig.listener l.handle, Sig.poller l.poller])) ∧
    (∀ (st : ListenerStorage) (l : ListenerData) (flags : Nat) (infos : List TopicInfo)
        (pd : PollerData), flags &&& l.eventMask ≠ 0 →
      getPoller st.pollers l.poller = some pd →
      ∃ app, (doSignalTopic st l flags infos).1 = setPollerQueue st l.poller (pd.queue ++ app) ∧
        (doSignalTopic st l flags infos).2 =
          (if app.isEmpty then [] else [Sig.listener l.handle, Sig.poller l.poller])) ∧
    (∀ (st : ListenerStorage) (l : ListenerData) (flags level : Nat) (filename : String)
        (line : Nat) (message : String) (pd : PollerData), flags &&& l.eventMask ≠ 0 →
      getPoller st.pollers l.poller = some pd →
      ∃ app, (doSignalLog st l flags level filename line message).1 =
          setPollerQueue st l.poller (pd.queue ++ app) ∧
        (doSignalLog st l flags level filename line message).2 =
          (if app.isEmpty then [] else [Sig.listener l.handle, Sig.poller l.poller])) ∧
    (∀ (st : ListenerStorage) (l : ListenerData) (flags : Nat) (infos : List ConnectionInfo)
        (pd : PollerData), flags &&& l.eventMask ≠ 0 →
      getPoller st.pollers l.poller = some pd →
      ∃ app, (doSignalConn st l flags infos).1 = setPollerQueue st l.poller (pd.queue ++ app) ∧
        (doSignalConn st l flags infos).2 = [Sig.listener l.handle, Sig.poller l.poller]) := by
  refine ⟨?_, ?_, ?_, ?_⟩
  · intro st l flags topic subentry value pd hm hp
    exact ⟨l.sources.flatMap (sourceEventsValue l.handle flags topic subentry value),
      by rw [doSignalValue_eq hm hp], by rw [doSignalValue_eq hm hp]⟩
  · intro st l flags infos pd hm hp
    exact ⟨l.sources.flatMap (sourceEventsTopic l.handle flags infos),
      by rw [doSignalTopic_eq hm hp], by rw [doSignalTopic_eq hm hp]⟩
  · intro st l flags level filename line message pd hm hp
    exact ⟨l.sources.flatMap (sourceEventsLog l.handle flags level filename line message),
      by rw [doSignalLog_eq hm hp], by rw [doSignalLog_eq hm hp]⟩
  · intro st l flags infos pd hm hp
    exact ⟨l.sources.flatMap (sourceEventsConn l.handle flags infos),
      by rw [doSignalConn_eq hm hp], by rw [doSignalConn_eq hm hp]⟩

theorem doSignal_wakeup_witness :
    ∃ app, (doSignalValue stW8 ⟨1, 1, 6, [(none, 6)]⟩ 2 7 8 9).1 =
        setPollerQueue stW8 1 ([] ++ app) ∧
      (doSignalValue stW8 ⟨1, 1, 6, [(none, 6)]⟩ 2 7 8 9).2 =
        (if app.isEmpty then [] else [Sig.listener 1, Sig.poller 1]) :=
  doSignal_wakeup_spec.1 stW8 ⟨1, 1, 6, [(none, 6)]⟩ 2 7 8 9 ⟨1, []⟩ (by decide) rfl

/-- A single-target value `Notify` reduces to its `doSignal` body. -/
theorem NotifyValue_single_step {st : ListenerStorage} {H : Nat} {l : ListenerData}
    (flags topic subentry value : Nat)
    (hg : getL st.listeners H = some l) (hf : ¬flags = 0) :
    NotifyValue st [H] flags topic subentry value =
      ((doSignalValue st l flags topic subentry value).1,
       (doSignalValue st l flags topic subentry value).2) := by
  unfold NotifyValue
  rw [if_neg hf]
  rw [if_neg (by simp : ¬(([H] : List Nat).isEmpty = true))]
  simp only [List.foldl_cons, List.foldl_nil]
  unfold notifyStepValue
  dsimp only
  rw [hg]
  rfl

/-- A single-target topic `Notify` reduces to its `doSignal` body. -/
theorem NotifyTopic_single_step {st : ListenerStorage} {H : Nat} {l : ListenerData}
    (flags : Nat) (infos : List TopicInfo)
    (hg : getL st.listeners H = some l) (hf : ¬flags = 0) :
    NotifyTopic st [H] flags infos =
      ((doSignalTopic st l flags infos).1, (doSignalTopic st l flags infos).2) := by
  unfold NotifyTopic
  rw [if_neg hf]
  rw [if_neg (by simp : ¬(([H] : List Nat).isEmpty = true))]
  simp only [List.foldl_cons, List.foldl_nil]
  unfold notifyStepTopic
  dsimp only
  rw [hg]
  rfl

/-- C3: when a listener's only matching source carries a finish-predicate
that vetoes the just-appended event, `Notify` (value and topic overloads)
leaves every poller queue exactly as it was — the appended-then-popped event
leaves no trace — and signals no wait handle. -/
theorem finish_predicate_veto_spec (st : ListenerStorage)
    (H flags topic subentry value m : Nat) (info : TopicInfo)
    (f : FinishEventFunc) (l : ListenerData) (pd : PollerData)
    (hg : getL st.listeners H = some l)
    (hs : l.sources = [(some f, m)])
    (he : l.eventMask = m)
    (hm : flags &&& m ≠ 0)
    (hp : getPoller st.pollers l.poller = some pd)
    (hveto : (f m ⟨H, flags, EventPayload.value topic subentry value⟩).1 = false)
    (hveto2 : (f m ⟨H, flags, EventPayload.topic info⟩).1 = false) :
    ((NotifyValue st [H] flags topic subentry value).2 = [] ∧
     ∀ x, getQueue (NotifyValue st [H] flags topic subentry value).1 x = getQueue st x) ∧
    ((NotifyTopic st [H] flags [info]).2 = [] ∧
     ∀ x, getQueue (NotifyTopic st [H] flags [info]).1 x = getQueue st x) := by
  have hH := getL_handle hg
  have hm' : flags &&& l.eventMask ≠ 0 := by
    rw [he]
    exact hm
  have hf0 : ¬flags = 0 := flags_ne_zero_of_land hm
  constructor
  · have happ : l.sources.flatMap (sourceEventsValue l.handle flags topic subentry value) = [] := by
      rw [hs]
      simp only [List.flatMap_cons, List.flatMap_nil, List.append_nil]
      unfold sourceEventsValue
      dsimp only
      rw [if_pos hm]
      unfold keepEvent
      rw [hH]
      simp [hveto]
    have hds := @doSignalValue_eq st l flags topic subentry value pd hm' hp
    rw [happ, List.append_nil] at hds
    have hds' : doSignalValue st l flags topic subentry value =
        (setPollerQueue st l.poller pd.queue, []) := by
      rw [hds]
      simp
    have hN := NotifyValue_single_step flags topic subentry value hg hf0
    rw [hds'] at hN
    refine ⟨by rw [hN], ?_⟩
    intro x
    rw [hN]
    exact getQueue_set_same hp x
  · have happ : l.sources.flatMap (sourceEventsTopic l.handle flags [info]) = [] := by
      rw [hs]
      simp only [List.flatMap_cons, List.flatMap_nil, List.append_nil]
      unfold sourceEventsTopic
      dsimp only
      rw [if_pos hm]
      simp only [List.flatMap_cons, List.flatMap_nil, List.append_nil]
      unfold keepEvent
      rw [hH]
      simp [hveto2]
    have hds := @doSignalTopic_eq st l flags [info] pd hm' hp
    rw [happ, List.append_nil] at hds
    have hds' : doSignalTopic st l flags [info] =
        (setPollerQueue st l.poller pd.queue, []) := by
      rw [hds]
      simp
    have hN := NotifyTopic_single_step flags [info] hg hf0
    rw [hds'] at hN
    refine ⟨by rw [hN], ?_⟩
    intro x
    rw [hN]
    exact getQueue_set_same hp x

/-- A finish-predicate that vetoes every event, for the C3 witness. -/
def fFalse : FinishEventFunc := fun _ e => (false, e)

/-- Concrete storage for the C3 witness: one value listener whose single
source vetoes everything. -/
def stW3 : ListenerStorage :=
  ⟨[⟨1, 1, 0x40, [(some fFalse, 0x40)]⟩], [⟨1, []⟩], [], [], [1], [], none, 2, 2⟩

theorem finish_predicate_veto_witness :
    (((NotifyValue stW3 [1] 0x40 5 6 7).2 = [] ∧
      ∀ x, getQueue (NotifyValue stW3 [1] 0x40 5 6 7).1 x = getQueue stW3 x) ∧
     ((NotifyTopic stW3 [1] 0x40 [9]).2 = [] ∧
      ∀ x, getQueue (NotifyTopic stW3 [1] 0x40 [9]).1 x = getQueue stW3 x)) :=
  finish_predicate_veto_spec stW3 1 0x40 5 6 7 0x40 9 fFalse
    ⟨1, 1, 0x40, [(some fFalse, 0x40)]⟩ ⟨1, []⟩ rfl rfl rfl (by decide) rfl rfl rfl

/-- Iterating single-payload value `Notify` calls targeted at one listener. -/
def runNotifyValues (st : ListenerStorage) (H : Nat)
    (calls : List (Nat × Nat × Nat × Nat)) : ListenerStorage :=
  calls.foldl (fun st c => (NotifyValue st [H] c.1 c.2.1 c.2.2.1 c.2.2.2).1) st

/-- One matching value `Notify` call on a listener with a single
predicate-free source appends exactly one event to its poller's queue. -/
theorem notifyValue_single {st : ListenerStorage} {l : ListenerData} {pd : PollerData}
    (H flags topic subentry value m : Nat)
    (hg : getL st.listeners H = some l) (hs : l.sources = [(none, m)]) (he : l.eventMask = m)
    (hm : flags &&& m ≠ 0) (hp : getPoller st.pollers l.poller = some pd) :
    (NotifyValue st [H] flags topic subentry value).1 =
      setPollerQueue st l.poller
        (pd.queue ++ [⟨H, flags, EventPayload.value topic subentry value⟩]) := by
  have hH := getL_handle hg
  have hm' : flags &&& l.eventMask ≠ 0 := by
    rw [he]
    exact hm
  have hf0 : ¬flags = 0 := flags_ne_zero_of_land hm
  have happ : l.sources.flatMap (sourceEventsValue l.handle flags topic subentry value) =
      [⟨H, flags, EventPayload.value topic subentry value⟩] := by
    rw [hs]
    simp only [List.flatMap_cons, List.flatMap_nil, List.append_nil]
    unfold sourceEventsValue
    dsimp only
    rw [if_pos hm]
    unfold keepEvent
    rw [hH]
  have hds := @doSignalValue_eq st l flags topic subentry value pd hm' hp
  rw [happ] at hds
  have hN := NotifyValue_single_step flags topic subentry value hg hf0
  rw [hds] at hN
  rw [hN]

theorem runNotifyValues_queue (H m : Nat) (calls : List (Nat × Nat × Nat × Nat)) :
    ∀ (st : ListenerStorage) (l : ListenerData) (pd : PollerData),
      getL st.listeners H = some l → l.sources = [(none, m)] → l.eventMask = m →
      getPoller st.pollers l.poller = some pd →
      (∀ c ∈ calls, c.1 &&& m ≠ 0) →
      getQueue (runNotifyValues st H calls) l.poller =
        pd.queue ++ calls.map (fun c => ⟨H, c.1, EventPayload.value c.2.1 c.2.2.1 c.2.2.2⟩) := by
  induction calls with
  | nil =>
    intro st l pd hg hs he hp _
    show getQueue st l.poller = pd.queue ++ []
    unfold getQueue
    rw [hp, List.append_nil]
  | cons c t ih =>
    intro st l pd hg hs he hp hall
    have hm := hall c (List.mem_cons_self c t)
    have hone := notifyValue_single H c.1 c.2.1 c.2.2.1 c.2.2.2 m hg hs he hm hp
    have hrun : runNotifyValues st H (c :: t) =
        runNotifyValues (NotifyValue st [H] c.1 c.2.1 c.2.2.1 c.2.2.2).1 H t := rfl
    rw [hrun, hone]
    have hg1 : getL (setPollerQueue st l.poller
        (pd.queue ++ [⟨H, c.1, EventPayload.value c.2.1 c.2.2.1 c.2.2.2⟩])).listeners H =
        some l := hg
    have hp1 := getPoller_set_self hp
      (pd.queue ++ [⟨H, c.1, EventPayload.value c.2.1 c.2.2.1 c.2.2.2⟩])
    have hrec := ih _ l _ hg1 hs he hp1 (fun c' hc' => hall c' (List.mem_cons_of_mem c hc'))
    rw [hrec]
    simp

/-- C6: for a listener with a single predicate-free source bound to poller
P, starting from an empty queue, N matching single-payload value `Notify`
calls leave exactly N events in P's queue, in call order. -/
theorem notifyValue_fifo_spec (st : ListenerStorage) (H m : Nat) (l : ListenerData)
    (pd : PollerData) (calls : List (Nat × Nat × Nat × Nat))
    (hg : getL st.listeners H = some l) (hs : l.sources = [(none, m)]) (he : l.eventMask = m)
    (hp : getPoller st.pollers l.poller = some pd) (hq : pd.queue = [])
    (hall : ∀ c ∈ calls, c.1 &&& m ≠ 0) :
    getQueue (runNotifyValues st H calls) l.poller =
      calls.map (fun c => ⟨H, c.1, EventPayload.value c.2.1 c.2.2.1 c.2.2.2⟩) ∧
    (getQueue (runNotifyValues st H calls) l.poller).length = calls.length := by
  have hmain := runNotifyValues_queue H m calls st l pd hg hs he hp hall
  rw [hq] at hmain
  rw [List.nil_append] at hmain
  exact ⟨hmain, by rw [hmain, List.length_map]⟩

/-- Concrete storage for the C6 witness: a value listener with a single
predicate-free source and an empty poller queue. -/
def stW6 : ListenerStorage :=
  ⟨[⟨1, 1, 0x40, [(none, 0x40)]⟩], [⟨1, []⟩], [], [], [1], [], none, 2, 2⟩

theorem notifyValue_fifo_witness :
    getQueue (runNotifyValues stW6 1 [(0x40, 10, 11, 12), (0x40, 20, 21, 22)]) 1 =
      [⟨1, 0x40, EventPayload.value 10 11 12⟩, ⟨1, 0x40, EventPayload.value 20 21 22⟩] ∧
    (getQueue (runNotifyValues stW6 1 [(0x40, 10, 11, 12), (0x40, 20, 21, 22)]) 1).length = 2 :=
  notifyValue_fifo_spec stW6 1 0x40 ⟨1, 1, 0x40, [(none, 0x40)]⟩ ⟨1, []⟩
    [(0x40, 10, 11, 12), (0x40, 20, 21, 22)] rfl rfl rfl rfl rfl (by decide)

/-- C1 counterexample: `AddListener` (here against a caller-created poller)
creates a listener with zero sources, which is then observable through the
public interface — so a listener with zero sources can exist, contradicting
"a listener with zero sources cannot exist". -/
theorem listener_zero_sources_exists :
    (runOps initState [Op.createListenerPoller, Op.addListenerPoller 1]).listeners.map
      (fun l => (l.handle, l.sources.length)) = [(1, 0)] := by decide

/-- C1 (amended): after any sequence of public operations, every listener's
aggregated `eventMask` equals the bitwise OR of all of its sources' masks; a
listener may have zero sources only between its creation by `AddListener`
and its first `Activate` (and then its mask is 0, the OR of no sources). -/
theorem eventMask_eq_or_of_sources (ops : List Op) :
    (runOps initState ops).listeners.Forall (fun l => l.eventMask = orMasks l.sources) := by
  rw [List.forall_iff_forall_mem]
  exact (inv_reachable ops).maskEq

/-- C10: after every sequence of public operations, a listener is in the
connection, topic and value category indices exactly when its `eventMask`
intersects the corresponding category bits, and in the log index exactly
when its mask intersects `NT_EVENT_LOGMESSAGE` or the extended log
sub-level range `0x1ff0000`. -/
theorem category_index_consistency (ops : List Op) :
    idxOk (runOps initState ops).listeners (runOps initState ops).connListeners
      NT_EVENT_CONNECTION NT_EVENT_CONNECTION ∧
    idxOk (runOps initState ops).listeners (runOps initState ops).topicListeners
      NT_EVENT_TOPIC NT_EVENT_TOPIC ∧
    idxOk (runOps initState ops).listeners (runOps initState ops).valueListeners
      NT_EVENT_VALUE_ALL NT_EVENT_VALUE_ALL ∧
    idxOk (runOps initState ops).listeners (runOps initState ops).logListeners
      NT_EVENT_LOGMESSAGE 0x1ff0000 :=
  ⟨(inv_reachable ops).connIdx, (inv_reachable ops).topicIdx,
   (inv_reachable ops).valueIdx, (inv_reachable ops).logIdx⟩

end nt
